import Mathlib

/-!
# Verification of the DingTalk channel connector

A shallow embedding, in Lean 4, of the core logic of the DingTalk channel
connector (session store, message-deduplication cache, outbound send engine,
per-turn reply dispatcher, gateway stop handling and inbound message handler),
together with proofs and refutations of the specification's claims about it.

Conventions used throughout:
* JavaScript strings are `String`, possibly-`undefined` values are `Option`.
* Timestamps (`Date.now()`) are `Nat` (milliseconds since the epoch);
  durations coming from configuration are `Int`, because the configuration can
  hold negative numbers (the test-suite exercises a negative session timeout).
  Subtractions that JavaScript performs on timestamps are computed in `Int`.
* `Map<string, V>` objects are association lists in insertion order; `Map.set`
  updates in place, `Map.delete` during a sweep is a filter.
* Network calls are events in an explicit trace (`TransportCall`,
  `DispatchAction`, ...); their outcomes are inputs ("oracles") supplied in an
  environment record, since the remote side is outside the embedded program.
-/

/-! ## JavaScript primitives -/

/-- JS truthiness of a possibly-`undefined` string: `undefined` and `""` are
falsy, every other string is truthy. -/
def strTruthy : Option String → Bool
  | none => false
  | some s => !(s == "")

/-- JS `a || b` for a possibly-`undefined` string `a` with default `b`. -/
def jsOrString (a : Option String) (b : String) : String :=
  match a with
  | some s => if s = "" then b else s
  | none => b

/-- Character-list version of JS `String.prototype.trim`: strip leading and
trailing whitespace. -/
def trimChars (cs : List Char) : List Char :=
  ((cs.dropWhile Char.isWhitespace).reverse.dropWhile Char.isWhitespace).reverse

/-- Model of JS `String.prototype.trim`. -/
def jsTrim (s : String) : String := String.mk (trimChars s.data)

/-- Model of JS `String.prototype.toLowerCase` (ASCII case folding; the CJK
characters appearing in this code base are unaffected by case folding in both
semantics). -/
def jsToLower (s : String) : String := String.mk (s.data.map Char.toLower)

/-- Association-list lookup, modelling `Map.get` / `Map.has`. -/
def mapGet {α : Type} : List (String × α) → String → Option α
  | [], _ => none
  | (k', v) :: rest, k => if k' = k then some v else mapGet rest k

/-- Association-list update, modelling `Map.set`: an existing key keeps its
position and gets the new value, a new key is appended. -/
def mapSet {α : Type} : List (String × α) → String → α → List (String × α)
  | [], k, v => [(k, v)]
  | (k', v') :: rest, k, v =>
    if k' = k then (k, v) :: rest else (k', v') :: mapSet rest k v

/-! ## Session data structure (`session.ts`)

`interface UserSession { lastActivity: number; sessionId: string }`,
`const userSessions = new Map<string, UserSession>()`. -/

/-- User session state: last activity time and current session identifier. -/
structure UserSession where
  lastActivity : Nat
  sessionId : String
deriving Repr, DecidableEq

/-- The `userSessions` map, passed explicitly. -/
abbrev SessionMap := List (String × UserSession)

/-- The stable first-contact key `` `dingtalk-connector:${senderId}` ``. -/
def sessionBaseKey (senderId : String) : String :=
  "dingtalk-connector:" ++ senderId

/-- The rotated key `` `dingtalk-connector:${senderId}:${now}` ``. -/
def sessionRotatedKey (senderId : String) (now : Nat) : String :=
  "dingtalk-connector:" ++ senderId ++ ":" ++ Nat.repr now

/-- Result of `getSessionKey`. -/
structure SessionKeyResult where
  sessionKey : String
  isNew : Bool
deriving Repr, DecidableEq

/-- `getSessionKey(senderId, forceNew, sessionTimeout, log?)` from
`session.ts`, with the single `Date.now()` read passed in as `now` and the
module-level `userSessions` map threaded explicitly.  The logger has no
observable effect and is omitted. -/
def getSessionKey (senderId : String) (forceNew : Bool) (sessionTimeout : Int)
    (now : Nat) (sessions : SessionMap) : SessionKeyResult × SessionMap :=
  let existing := mapGet sessions senderId
  if forceNew then
    let sessionId := sessionRotatedKey senderId now
    (⟨sessionId, true⟩, mapSet sessions senderId ⟨now, sessionId⟩)
  else
    match existing with
    | some ex =>
      let elapsed : Int := (now : Int) - (ex.lastActivity : Int)
      if elapsed > sessionTimeout then
        let sessionId := sessionRotatedKey senderId now
        (⟨sessionId, true⟩, mapSet sessions senderId ⟨now, sessionId⟩)
      else
        -- `existing.lastActivity = now` mutates the stored record in place.
        (⟨ex.sessionId, false⟩, mapSet sessions senderId ⟨now, ex.sessionId⟩)
    | none =>
      let sessionId := sessionBaseKey senderId
      (⟨sessionId, false⟩, mapSet sessions senderId ⟨now, sessionId⟩)

/-! ## Message deduplication (`session.ts`) -/

/-- The `processedMessages` map (`Map<messageId, timestamp>`). -/
abbrev MessageMap := List (String × Nat)

/-- Message deduplication cache expiration time (5 minutes). -/
def MESSAGE_DEDUP_TTL : Nat := 5 * 60 * 1000

/-- `cleanupProcessedMessages()`: delete every entry with
`now - timestamp > MESSAGE_DEDUP_TTL`.  The source reads its own `Date.now()`;
as it runs synchronously inside `markMessageProcessed` the two reads are
modelled as the same instant. -/
def cleanupProcessedMessages (now : Nat) (m : MessageMap) : MessageMap :=
  m.filter fun e => !((now : Int) - (e.2 : Int) > (MESSAGE_DEDUP_TTL : Int))

/-- `isMessageProcessed(messageId)`: `false` for a falsy (empty) id, else a
membership check. -/
def isMessageProcessed (messageId : String) (m : MessageMap) : Bool :=
  if messageId = "" then false
  else (mapGet m messageId).isSome

/-- `markMessageProcessed(messageId)`: no-op for a falsy id; otherwise insert
with the current timestamp and, if the size has reached 100, synchronously
sweep expired entries. -/
def markMessageProcessed (messageId : String) (now : Nat) (m : MessageMap) :
    MessageMap :=
  if messageId = "" then m
  else
    let m' := mapSet m messageId now
    if m'.length ≥ 100 then cleanupProcessedMessages now m' else m'

/-! ## Session commands (`session.ts`) -/

/-- Commands triggering a new session. -/
def NEW_SESSION_COMMANDS : List String :=
  ["/new", "/reset", "/clear", "新会话", "重新开始", "清空对话"]

/-- `isNewSessionCommand(text)`: the trimmed, lower-cased text equals one of
the commands (compared lower-cased). -/
def isNewSessionCommand (text : String) : Bool :=
  let trimmed := jsToLower (jsTrim text)
  NEW_SESSION_COMMANDS.any fun cmd => trimmed == jsToLower cmd

/-! ## Decimal rendering of timestamps

The rotated session key embeds `` `${now}` ``, i.e. `Nat.repr now`.  To reason
about key collisions we prove that `Nat.repr` is injective, via the evaluation
map `digitsVal` that reads a decimal digit string back as a number. -/

/-- Numeric value of a decimal digit character. -/
def charToDigit (c : Char) : Nat := c.toNat - '0'.toNat

/-- Value of a most-significant-first digit string. -/
def digitsVal (cs : List Char) : Nat :=
  cs.foldl (fun a c => a * 10 + charToDigit c) 0

theorem charToDigit_digitChar (d : Nat) (hd : d < 10) :
    charToDigit (Nat.digitChar d) = d := by
  interval_cases d <;> rfl

theorem toDigitsCore_append (fuel : Nat) :
    ∀ (n : Nat) (acc : List Char),
      Nat.toDigitsCore 10 fuel n acc = Nat.toDigitsCore 10 fuel n [] ++ acc := by
  induction fuel with
  | zero => intro n acc; simp [Nat.toDigitsCore]
  | succ fuel ih =>
    intro n acc
    simp only [Nat.toDigitsCore]
    by_cases h : n / 10 = 0
    · simp [h]
    · simp only [h, if_false]
      rw [ih (n / 10) [Nat.digitChar (n % 10)], ih (n / 10) (Nat.digitChar (n % 10) :: acc)]
      simp

theorem digitsVal_append_singleton (cs : List Char) (c : Char) :
    digitsVal (cs ++ [c]) = digitsVal cs * 10 + charToDigit c := by
  simp [digitsVal, List.foldl_append]

theorem digitsVal_toDigitsCore (fuel : Nat) :
    ∀ n : Nat, n < fuel → digitsVal (Nat.toDigitsCore 10 fuel n []) = n := by
  induction fuel with
  | zero => intro n hn; omega
  | succ fuel ih =>
    intro n hn
    simp only [Nat.toDigitsCore]
    by_cases h : n / 10 = 0
    · have hlt : n < 10 := by omega
      simp [h, digitsVal, Nat.mod_eq_of_lt hlt, charToDigit_digitChar n hlt]
    · simp only [h, if_false]
      rw [toDigitsCore_append fuel (n / 10) [Nat.digitChar (n % 10)]]
      rw [digitsVal_append_singleton]
      have hdiv : n / 10 < fuel := by
        have h1 : 0 < n := by
          rcases Nat.eq_zero_or_pos n with h0 | h0
          · exfalso; apply h; simp [h0]
          · exact h0
        have := Nat.div_lt_self h1 (by norm_num : 1 < 10)
        omega
      rw [ih (n / 10) hdiv, charToDigit_digitChar (n % 10) (Nat.mod_lt n (by norm_num))]
      omega

theorem digitsVal_repr (n : Nat) : digitsVal (Nat.repr n).data = n := by
  have : (Nat.repr n).data = Nat.toDigitsCore 10 (n + 1) n [] := rfl
  rw [this]
  exact digitsVal_toDigitsCore (n + 1) n (Nat.lt_succ_self n)

/-- `Nat.repr` is injective: distinct timestamps render as distinct strings. -/
theorem repr_inj {a b : Nat} (h : Nat.repr a = Nat.repr b) : a = b := by
  have := congrArg (fun s => digitsVal (String.data s)) h
  simpa [digitsVal_repr] using this

/-- A rotated key never equals the sender's first-contact key. -/
theorem sessionRotatedKey_ne_baseKey (s : String) (t : Nat) :
    sessionRotatedKey s t ≠ sessionBaseKey s := by
  intro h
  have hlen := congrArg String.length h
  simp [sessionRotatedKey, sessionBaseKey, String.length_append] at hlen
  have : (Nat.repr t).length = (Nat.repr t).data.length := rfl
  have hdata : (Nat.repr t).data = Nat.toDigitsCore 10 (t + 1) t [] := rfl
  -- `Nat.toDigitsCore` with positive fuel always emits at least one digit.
  have hne : (Nat.repr t).data ≠ [] := by
    rw [hdata]
    simp only [Nat.toDigitsCore]
    by_cases h10 : t / 10 = 0
    · simp [h10]
    · simp only [h10, if_false]
      rw [toDigitsCore_append t (t / 10) [Nat.digitChar (t % 10)]]
      simp
  have : 0 < (Nat.repr t).length := by
    cases hd : (Nat.repr t).data with
    | nil => exact absurd hd hne
    | cons c cs => simp [String.length, hd]
  omega

/-- Rotated keys of the same sender at distinct milliseconds are distinct. -/
theorem sessionRotatedKey_inj (s : String) {t t' : Nat} (h : t ≠ t') :
    sessionRotatedKey s t ≠ sessionRotatedKey s t' := by
  intro heq
  apply h
  have hdata := congrArg String.data heq
  simp only [sessionRotatedKey, String.data_append, List.append_assoc] at hdata
  have h1 := List.append_cancel_left hdata
  have h2 := List.append_cancel_left h1
  have h3 := List.append_cancel_left h2
  exact repr_inj (String.ext h3)

/-! ## Types shared by the outbound send engine (`types.ts`, `send.ts`) -/

/-- `AICardTarget`: user or group recipient of a rich card. -/
inductive AICardTarget where
  | user (userId : String)
  | group (openConversationId : String)
deriving Repr, DecidableEq

/-- `AICardInstance` (the `accessToken` / `inputingStarted` fields only feed
the external streaming transport and are omitted). -/
structure AICardInstance where
  cardInstanceId : String
deriving Repr, DecidableEq

/-- One externally visible network call made by the send engine. -/
inductive TransportCall where
  | fetchOapiToken
  | uploadMedia (path : String)
  | createCard (target : AICardTarget)
  | finishAICard (cardInstanceId : String) (content : String)
  | fetchAccessToken
  | batchSendUser (userIds : List String) (msgKey : String)
  | groupSend (openConversationId : String) (msgKey : String)
deriving Repr, DecidableEq

/-! ## String scanning primitives

The media post-processing functions in `media.ts` operate with JS regexes.
They are embedded as explicit scanners over `List Char`; each scanner's doc
comment names the regex it implements. -/

/-- Consume the literal prefix `pre` from `cs` (case-sensitively). -/
def dropPrefixChars : List Char → List Char → Option (List Char)
  | [], cs => some cs
  | _ :: _, [] => none
  | p :: ps, c :: cs => if c = p then dropPrefixChars ps cs else none

/-- Consume the literal prefix `pre` from `cs` case-insensitively (for the
`/i`-flagged regex). -/
def dropPrefixCI : List Char → List Char → Option (List Char)
  | [], cs => some cs
  | _ :: _, [] => none
  | p :: ps, c :: cs => if c.toLower = p.toLower then dropPrefixCI ps cs else none

theorem dropPrefixChars_length :
    ∀ (pre cs r : List Char), dropPrefixChars pre cs = some r →
      r.length + pre.length = cs.length := by
  intro pre
  induction pre with
  | nil => intro cs r h; simp [dropPrefixChars] at h; simp [h]
  | cons p ps ih =>
    intro cs r h
    cases cs with
    | nil => simp [dropPrefixChars] at h
    | cons c cs' =>
      simp only [dropPrefixChars] at h
      split at h
      · have := ih cs' r h
        simp [List.length_cons]; omega
      · exact absurd h (by simp)

theorem dropPrefixCI_length :
    ∀ (pre cs r : List Char), dropPrefixCI pre cs = some r →
      r.length + pre.length = cs.length := by
  intro pre
  induction pre with
  | nil => intro cs r h; simp [dropPrefixCI] at h; simp [h]
  | cons p ps ih =>
    intro cs r h
    cases cs with
    | nil => simp [dropPrefixCI] at h
    | cons c cs' =>
      simp only [dropPrefixCI] at h
      split at h
      · have := ih cs' r h
        simp [List.length_cons]; omega
      · exact absurd h (by simp)

/-- `dropPrefixChars` only succeeds when the first characters agree. -/
theorem dropPrefixChars_head {p : Char} {ps : List Char} {c : Char} {cs r : List Char}
    (h : dropPrefixChars (p :: ps) (c :: cs) = some r) : c = p := by
  simp only [dropPrefixChars] at h
  split at h
  · assumption
  · exact absurd h (by simp)

/-- Greedy scan `[^X]*` followed by the literal `X`: returns the segment
before the first occurrence of `stop` and the remainder after it. -/
def takeUntil (stop : Char) : List Char → Option (List Char × List Char)
  | [] => none
  | c :: cs =>
    if c = stop then some ([], cs)
    else
      match takeUntil stop cs with
      | some (seg, rest) => some (c :: seg, rest)
      | none => none

theorem takeUntil_length (stop : Char) :
    ∀ (cs seg rest : List Char), takeUntil stop cs = some (seg, rest) →
      seg.length + 1 + rest.length = cs.length := by
  intro cs
  induction cs with
  | nil => intro seg rest h; simp [takeUntil] at h
  | cons c cs' ih =>
    intro seg rest h
    simp only [takeUntil] at h
    split at h
    · simp at h
      obtain ⟨h1, h2⟩ := h
      subst h1; subst h2; simp; omega
    · cases heq : takeUntil stop cs' with
      | none => rw [heq] at h; simp at h
      | some p =>
        rw [heq] at h
        obtain ⟨seg', rest'⟩ := p
        simp at h
        obtain ⟨h1, h2⟩ := h
        subst h1; subst h2
        have := ih seg' rest' heq
        simp; omega

/-- Lazy scan `.*?` (not matching a newline) up to the earliest occurrence of
the literal `closeSeq`; returns the remainder after `closeSeq`. -/
def scanLazyBody (closeSeq : List Char) : List Char → Option (List Char)
  | [] => none
  | c :: cs =>
    match dropPrefixChars closeSeq (c :: cs) with
    | some rest => some rest
    | none => if c = '\n' then none else scanLazyBody closeSeq cs

theorem scanLazyBody_length {p : Char} {ps : List Char} :
    ∀ (cs r : List Char), scanLazyBody (p :: ps) cs = some r → r.length < cs.length := by
  intro cs
  induction cs with
  | nil => intro r h; simp [scanLazyBody] at h
  | cons c cs' ih =>
    intro r h
    simp only [scanLazyBody] at h
    cases heq : dropPrefixChars (p :: ps) (c :: cs') with
    | some rest =>
      rw [heq] at h
      simp at h
      subst h
      have := dropPrefixChars_length (p :: ps) (c :: cs') rest heq
      simp at this ⊢
      omega
    | none =>
      rw [heq] at h
      simp at h
      obtain ⟨-, h2⟩ := h
      have := ih r h2
      simp
      omega

/-- One anchored match of the marker regex `` \[TAG\]({.*?})\[\/TAG\] ``
(`FILE_MARKER_PATTERN` / `VIDEO_MARKER_PATTERN` / `AUDIO_MARKER_PATTERN` in
`media.ts`), at the head of `cs`; returns the suffix after the match. -/
def matchMarkerAt (tag : String) (cs : List Char) : Option (List Char) :=
  match dropPrefixChars ("[" ++ tag ++ "]").data cs with
  | none => none
  | some rest =>
    match rest with
    | '{' :: body => scanLazyBody ('}' :: ("[/" ++ tag ++ "]").data) body
    | _ => none

theorem matchMarkerAt_length (tag : String) (cs r : List Char)
    (h : matchMarkerAt tag cs = some r) : r.length < cs.length := by
  simp only [matchMarkerAt] at h
  cases heq : dropPrefixChars ("[" ++ tag ++ "]").data cs with
  | none => rw [heq] at h; simp at h
  | some rest =>
    rw [heq] at h
    have hlen := dropPrefixChars_length _ cs rest heq
    have hpre : 1 ≤ ("[" ++ tag ++ "]").data.length := by
      simp [String.data_append]
    cases rest with
    | nil => simp at h
    | cons c body =>
      by_cases hc : c = '{'
      · subst hc
        simp at h
        have := scanLazyBody_length body r h
        simp at hlen
        omega
      · cases c <;> simp_all

/-- Global replacement by the empty string of a marker regex
(`content.replace(PATTERN, "")`): scan left to right, skipping matches. -/
def replaceMarkers (tag : String) (cs : List Char) : List Char :=
  match cs with
  | [] => []
  | c :: cs' =>
    match h : matchMarkerAt tag (c :: cs') with
    | some rest => replaceMarkers tag rest
    | none => c :: replaceMarkers tag cs'
termination_by cs.length
decreasing_by
  · exact matchMarkerAt_length _ _ _ h
  · simp

/-- `processVideoMarkers` (`media.ts`):
`content.replace(VIDEO_MARKER_PATTERN, "").trim()`.  The simplified source
ignores all parameters other than `content`; those are omitted. -/
def processVideoMarkers (content : String) : String :=
  jsTrim (String.mk (replaceMarkers "DINGTALK_VIDEO" content.data))

/-- `processAudioMarkers` (`media.ts`):
`content.replace(AUDIO_MARKER_PATTERN, "").trim()`. -/
def processAudioMarkers (content : String) : String :=
  jsTrim (String.mk (replaceMarkers "DINGTALK_AUDIO" content.data))

/-- `processFileMarkers` (`media.ts`):
`content.replace(FILE_MARKER_PATTERN, "").trim()`. -/
def processFileMarkers (content : String) : String :=
  jsTrim (String.mk (replaceMarkers "DINGTALK_FILE" content.data))

/-! ## Local image recognition (`media.ts`, `LOCAL_IMAGE_RE`)

`/!\[([^\]]*)\]\(((?:file:\/\/\/|MEDIA:|attachment:\/\/\/)[^)]+|\/(?:tmp|var|private|Users|home|root)[^)]+|[A-Za-z]:[\\\/ ][^)]+)\)/g`
-/

/-- ASCII letter test (`[A-Za-z]`). -/
def isAsciiLetter (c : Char) : Bool :=
  ('A' ≤ c && c ≤ 'Z') || ('a' ≤ c && c ≤ 'z')

/-- Try a list of literal alternatives as prefixes, in regex alternation
order; case-sensitive. -/
def firstDropPrefix : List String → List Char → Option (String × List Char)
  | [], _ => none
  | p :: ps, cs =>
    match dropPrefixChars p.data cs with
    | some r => some (p, r)
    | none => firstDropPrefix ps cs

theorem firstDropPrefix_length :
    ∀ (ps : List String) (cs : List Char) (p : String) (r : List Char),
      firstDropPrefix ps cs = some (p, r) → r.length ≤ cs.length := by
  intro ps
  induction ps with
  | nil => intro cs p r h; simp [firstDropPrefix] at h
  | cons q qs ih =>
    intro cs p r h
    simp only [firstDropPrefix] at h
    cases heq : dropPrefixChars q.data cs with
    | some r' =>
      rw [heq] at h
      simp at h
      obtain ⟨-, h2⟩ := h
      subst h2
      have := dropPrefixChars_length q.data cs r' heq
      omega
    | none =>
      rw [heq] at h
      simp at h
      exact ih cs p r h

/-- Shared tail of every path alternative of `LOCAL_IMAGE_RE`: the greedy
`[^)]+` followed by the closing `\)`.  `prefixChars` is the part of the path
already consumed by the alternative. -/
def matchSegClose (prefixChars r : List Char) : Option (List Char × List Char) :=
  match takeUntil ')' r with
  | some (seg, rest) => if seg.isEmpty then none else some (prefixChars ++ seg, rest)
  | none => none

theorem matchSegClose_length (pc r path rest : List Char)
    (h : matchSegClose pc r = some (path, rest)) : rest.length ≤ r.length := by
  simp only [matchSegClose] at h
  cases h2 : takeUntil ')' r with
  | some segrest =>
    obtain ⟨seg, rest'⟩ := segrest
    rw [h2] at h
    by_cases hseg : seg.isEmpty
    · simp [hseg] at h
    · simp [hseg] at h
      obtain ⟨-, h5⟩ := h
      rw [← h5]
      have := takeUntil_length ')' r seg rest' h2
      omega
  | none => rw [h2] at h; simp at h

/-- The path alternation of `LOCAL_IMAGE_RE` anchored at `cs`:
`(?:file:\/\/\/|MEDIA:|attachment:\/\/\/)[^)]+` or
`\/(?:tmp|var|private|Users|home|root)[^)]+` or `[A-Za-z]:[\\\/ ][^)]+`,
followed by the closing `\)`.  Returns the captured path (group 2) and the
suffix after `)`. -/
def matchImagePathAt (cs : List Char) : Option (List Char × List Char) :=
  match firstDropPrefix ["file:///", "MEDIA:", "attachment:///"] cs with
  | some (p, r) => matchSegClose p.data r
  | none =>
    match cs with
    | [] => none
    | c0 :: cs1 =>
      if c0 = '/' then
        match firstDropPrefix ["tmp", "var", "private", "Users", "home", "root"] cs1 with
        | some (root, r) => matchSegClose ('/' :: root.data) r
        | none => none
      else
        match cs1 with
        | c1 :: b :: cs2 =>
          if isAsciiLetter c0 && (c1 = ':') && (b = '\\' || b = '/' || b = ' ') then
            matchSegClose [c0, c1, b] cs2
          else none
        | _ => none

theorem matchImagePathAt_length (cs path rest : List Char)
    (h : matchImagePathAt cs = some (path, rest)) : rest.length ≤ cs.length := by
  simp only [matchImagePathAt] at h
  cases h1 : firstDropPrefix ["file:///", "MEDIA:", "attachment:///"] cs with
  | some pr =>
    obtain ⟨p, r⟩ := pr
    rw [h1] at h
    have l1 := firstDropPrefix_length _ cs p r h1
    have l2 := matchSegClose_length p.data r path rest h
    omega
  | none =>
    rw [h1] at h
    cases cs with
    | nil => simp at h
    | cons c0 cs1 =>
      simp only at h
      by_cases hc0 : c0 = '/'
      · rw [if_pos hc0] at h
        cases h2 : firstDropPrefix ["tmp", "var", "private", "Users", "home", "root"] cs1 with
        | some pr =>
          obtain ⟨root, r⟩ := pr
          rw [h2] at h
          have l1 := firstDropPrefix_length _ cs1 root r h2
          have l2 := matchSegClose_length _ r path rest h
          simp
          omega
        | none => rw [h2] at h; simp at h
      · rw [if_neg hc0] at h
        cases cs1 with
        | nil => simp at h
        | cons c1 cs1' =>
          cases cs1' with
          | nil => simp at h
          | cons b cs2 =>
            simp only at h
            split at h
            · have l2 := matchSegClose_length _ cs2 path rest h
              simp
              omega
            · simp at h

/-- `c.isWhitespace` rules out every anchor character used by the matchers. -/
theorem whitespace_not_anchor {c : Char} (hw : c.isWhitespace = true) :
    c ≠ '[' ∧ c ≠ '!' ∧ c ≠ '/' ∧ c ≠ '\x60' ∧ isAsciiLetter c = false := by
  have hc : c = ' ' ∨ c = '\t' ∨ c = '\r' ∨ c = '\n' := by
    have h := hw
    simp [Char.isWhitespace, Bool.or_eq_true, decide_eq_true_eq] at h
    tauto
  rcases hc with rfl | rfl | rfl | rfl <;>
    exact ⟨by decide, by decide, by decide, by decide, by decide⟩

/-- One match of `LOCAL_IMAGE_RE`: full match text, alt text (group 1) and
raw path (group 2). -/
structure ImageMatch where
  fullMatch : List Char
  alt : List Char
  rawPath : List Char
deriving Repr, DecidableEq

/-- `LOCAL_IMAGE_RE` anchored at the head of `cs`:
`!\[` then greedy `[^\]]*` then `\]\(` then the path alternation then `\)`. -/
def matchLocalImageAt (cs : List Char) : Option (ImageMatch × List Char) :=
  match cs with
  | c0 :: c1 :: rest =>
    if c0 = '!' && c1 = '[' then
      match takeUntil ']' rest with
      | some (alt, rest2) =>
        match rest2 with
        | c2 :: rest3 =>
          if c2 = '(' then
            match matchImagePathAt rest3 with
            | some (path, rest4) =>
              some (⟨'!' :: '[' :: (alt ++ ']' :: '(' :: (path ++ [')'])), alt, path⟩, rest4)
            | none => none
          else none
        | [] => none
      | none => none
    else none
  | _ => none

theorem matchLocalImageAt_length (cs : List Char) (m : ImageMatch) (rest : List Char)
    (h : matchLocalImageAt cs = some (m, rest)) : rest.length < cs.length := by
  cases cs with
  | nil => simp [matchLocalImageAt] at h
  | cons c0 cs0 =>
    cases cs0 with
    | nil => simp [matchLocalImageAt] at h
    | cons c1 rest0 =>
      simp only [matchLocalImageAt] at h
      split at h
      · cases h1 : takeUntil ']' rest0 with
        | some ar =>
          obtain ⟨alt, rest2⟩ := ar
          rw [h1] at h
          have l1 := takeUntil_length ']' rest0 alt rest2 h1
          cases rest2 with
          | nil => simp at h
          | cons c2 rest3 =>
            simp only at h
            split at h
            · cases h2 : matchImagePathAt rest3 with
              | some pr =>
                obtain ⟨path, rest4⟩ := pr
                rw [h2] at h
                simp at h
                obtain ⟨-, h4⟩ := h
                have l2 := matchImagePathAt_length rest3 path rest4 h2
                rw [← h4]
                simp at l1 ⊢
                omega
              | none => rw [h2] at h; simp at h
            · simp at h
        | none => rw [h1] at h; simp at h
      · simp at h

/-- All matches of `LOCAL_IMAGE_RE` in document order
(`[...content.matchAll(LOCAL_IMAGE_RE)]`): non-overlapping, resuming after
each match. -/
def findLocalImageMatches (cs : List Char) : List ImageMatch :=
  match cs with
  | [] => []
  | c :: cs' =>
    match h : matchLocalImageAt (c :: cs') with
    | some (m, rest) => m :: findLocalImageMatches rest
    | none => findLocalImageMatches cs'
termination_by cs.length
decreasing_by
  · exact matchLocalImageAt_length _ _ _ h
  · simp

/-- `rawPath.replace(/\\ /g, " ")` from the image upload loop. -/
def replaceBackslashSpace : List Char → List Char
  | '\\' :: ' ' :: cs => ' ' :: replaceBackslashSpace cs
  | c :: cs => c :: replaceBackslashSpace cs
  | [] => []

/-- JS `String.prototype.replace` with a string pattern: replace the first
occurrence of `pat` (if any) by `repl`. -/
def replaceFirstChars (pat repl : List Char) : List Char → List Char
  | [] => []
  | c :: cs =>
    match dropPrefixChars pat (c :: cs) with
    | some rest => repl ++ rest
    | none => c :: replaceFirstChars pat repl cs

/-! ## Bare image path recognition (`media.ts`, `BARE_IMAGE_PATH_RE`)

``/`?((?:\/(?:tmp|var|private|Users|home|root)\/[^\s`'",)]+|[A-Za-z]:[\\\/][^\s`'",)]+)\.(?:png|jpg|jpeg|gif|bmp|webp))`?/gi``
-/

/-- A character allowed inside a bare path: `[^\s`'",)]`. -/
def bareAllowedChar (c : Char) : Bool :=
  !(c.isWhitespace || c = '\x60' || c = '\'' || c = '"' || c = ',' || c = ')')

/-- Try a list of literal alternatives as prefixes, case-insensitively (the
regex carries the `i` flag). -/
def firstDropPrefixCI : List String → List Char → Option (String × List Char)
  | [], _ => none
  | p :: ps, cs =>
    match dropPrefixCI p.data cs with
    | some r => some (p, r)
    | none => firstDropPrefixCI ps cs

theorem firstDropPrefixCI_length :
    ∀ (ps : List String) (cs : List Char) (p : String) (r : List Char),
      firstDropPrefixCI ps cs = some (p, r) → r.length ≤ cs.length := by
  intro ps
  induction ps with
  | nil => intro cs p r h; simp [firstDropPrefixCI] at h
  | cons q qs ih =>
    intro cs p r h
    simp only [firstDropPrefixCI] at h
    cases heq : dropPrefixCI q.data cs with
    | some r' =>
      rw [heq] at h
      simp at h
      obtain ⟨-, h2⟩ := h
      subst h2
      have := dropPrefixCI_length q.data cs r' heq
      omega
    | none =>
      rw [heq] at h
      simp at h
      exact ih cs p r h

/-- The recognized image extensions, in regex alternation order. -/
def imageExts : List String := ["png", "jpg", "jpeg", "gif", "bmp", "webp"]

/-- `\.(?:png|jpg|jpeg|gif|bmp|webp)` (case-insensitive) at the head of `cs`;
returns the matched characters (in their original case) and the rest. -/
def matchDotExt (cs : List Char) : Option (List Char × List Char) :=
  match cs with
  | c0 :: cs' =>
    if c0 = '.' then
      match firstDropPrefixCI imageExts cs' with
      | some (ext, rest) => some ('.' :: cs'.take ext.length, rest)
      | none => none
    else none
  | [] => none

theorem matchDotExt_length (cs de rest : List Char)
    (h : matchDotExt cs = some (de, rest)) : rest.length < cs.length ∧ 0 < de.length := by
  cases cs with
  | nil => simp [matchDotExt] at h
  | cons c0 cs' =>
    simp only [matchDotExt] at h
    split at h
    · cases h1 : firstDropPrefixCI imageExts cs' with
      | some er =>
        obtain ⟨ext, r⟩ := er
        rw [h1] at h
        simp at h
        obtain ⟨h3, h4⟩ := h
        have hr := firstDropPrefixCI_length imageExts cs' ext r h1
        constructor
        · rw [← h4]
          simp
          omega
        · rw [← h3]
          simp
      | none => rw [h1] at h; simp at h
    · simp at h

/-- `dropPrefixCI` consumes exactly the prefix length. -/
theorem dropPrefixCI_take_drop :
    ∀ (pre cs r : List Char), dropPrefixCI pre cs = some r →
      cs.take pre.length ++ r = cs := by
  intro pre
  induction pre with
  | nil => intro cs r h; simp [dropPrefixCI] at h; simp [h]
  | cons p ps ih =>
    intro cs r h
    cases cs with
    | nil => simp [dropPrefixCI] at h
    | cons c cs' =>
      simp only [dropPrefixCI] at h
      split at h
      · have := ih cs' r h
        simp [this]
      · exact absurd h (by simp)

/-- Backtracking split of the greedy run `[^\s`'",)]+` before `\.ext`: the
longest non-empty prefix `seg` of `rs` immediately followed by a `\.ext`
match.  Returns `(seg, matched extension chars, rest of the run)`. -/
def lastExtSplit (rs : List Char) : Option (List Char × List Char × List Char) :=
  match rs with
  | [] => none
  | c :: rs' =>
    match lastExtSplit rs' with
    | some (seg, de, tail) => some (c :: seg, de, tail)
    | none =>
      match matchDotExt (c :: rs') with
      | some (de, tail) => some ([], de, tail)
      | none => none

theorem lastExtSplit_tail_length :
    ∀ (rs seg de tail : List Char), lastExtSplit rs = some (seg, de, tail) →
      tail.length ≤ rs.length := by
  intro rs
  induction rs with
  | nil => intro seg de tail h; simp [lastExtSplit] at h
  | cons c rs' ih =>
    intro seg de tail h
    simp only [lastExtSplit] at h
    cases h1 : lastExtSplit rs' with
    | some sdt =>
      obtain ⟨seg', de', tail'⟩ := sdt
      rw [h1] at h
      simp at h
      obtain ⟨-, -, h4⟩ := h
      subst h4
      have := ih seg' de' tail' h1
      simp; omega
    | none =>
      rw [h1] at h
      simp only at h
      cases h2 : matchDotExt (c :: rs') with
      | some dt =>
        obtain ⟨de', tail'⟩ := dt
        rw [h2] at h
        simp at h
        obtain ⟨-, -, h4⟩ := h
        subst h4
        have := (matchDotExt_length (c :: rs') de' tail' h2).1
        simp at this ⊢
        omega
      | none => rw [h2] at h; simp at h

/-- One bare-path match: the full matched text (with any backticks) and the
captured path (group 1). -/
structure BareMatch where
  fullMatch : List Char
  rawPath : List Char
deriving Repr, DecidableEq

/-- The core alternation of `BARE_IMAGE_PATH_RE` (the capture group) anchored
at `cs`: `\/(?:tmp|var|private|Users|home|root)\/[^\s`'",)]+` or
`[A-Za-z]:[\\\/][^\s`'",)]+`, each followed by `\.(?:png|...)` obtained by
backtracking out of the greedy run. -/
def matchBareCoreAt (cs : List Char) : Option (List Char × List Char) :=
  match cs with
  | c0 :: cs1 =>
    if c0 = '/' then
      match firstDropPrefixCI ["tmp", "var", "private", "Users", "home", "root"] cs1 with
      | some (root, r) =>
        match r with
        | c1 :: r' =>
          if c1 = '/' then
            let run := r'.takeWhile bareAllowedChar
            let after := r'.dropWhile bareAllowedChar
            match lastExtSplit run with
            | some (seg, de, tail) =>
              if seg.isEmpty then none
              else some ('/' :: (cs1.take root.length ++ '/' :: (seg ++ de)), tail ++ after)
            | none => none
          else none
        | [] => none
      | none => none
    else
      match cs1 with
      | c1 :: b :: cs2 =>
        if isAsciiLetter c0 && (c1 = ':') && (b = '\\' || b = '/') then
          let run := cs2.takeWhile bareAllowedChar
          let after := cs2.dropWhile bareAllowedChar
          match lastExtSplit run with
          | some (seg, de, tail) =>
            if seg.isEmpty then none
            else some (c0 :: c1 :: b :: (seg ++ de), tail ++ after)
          | none => none
        else none
      | _ => none
  | [] => none

theorem run_split_length (r' tail : List Char)
    (h : tail.length ≤ (r'.takeWhile bareAllowedChar).length) :
    (tail ++ r'.dropWhile bareAllowedChar).length ≤ r'.length := by
  have hsplit : (r'.takeWhile bareAllowedChar).length +
      (r'.dropWhile bareAllowedChar).length = r'.length := by
    have h2 := List.takeWhile_append_dropWhile (p := bareAllowedChar) (l := r')
    have h3 := congrArg List.length h2
    rw [List.length_append] at h3
    exact h3
  simp
  omega

theorem matchBareCoreAt_length (cs core rest : List Char)
    (h : matchBareCoreAt cs = some (core, rest)) : rest.length < cs.length := by
  cases cs with
  | nil => simp [matchBareCoreAt] at h
  | cons c0 cs1 =>
    simp only [matchBareCoreAt] at h
    split at h
    · cases h1 : firstDropPrefixCI ["tmp", "var", "private", "Users", "home", "root"] cs1 with
      | some pr =>
        obtain ⟨root, r⟩ := pr
        rw [h1] at h
        have lr := firstDropPrefixCI_length _ cs1 root r h1
        cases r with
        | nil => simp at h
        | cons c1 r' =>
          simp only at h
          split at h
          · cases h2 : lastExtSplit (r'.takeWhile bareAllowedChar) with
            | some sdt =>
              obtain ⟨seg, de, tail⟩ := sdt
              rw [h2] at h
              by_cases hseg : seg.isEmpty
              · simp [hseg] at h
              · simp [hseg] at h
                obtain ⟨-, h4⟩ := h
                have lt := lastExtSplit_tail_length _ seg de tail h2
                have lrun := run_split_length r' tail lt
                rw [← h4]
                simp at lr lrun ⊢
                omega
            | none => rw [h2] at h; simp at h
          · simp at h
      | none => rw [h1] at h; simp at h
    · cases cs1 with
      | nil => simp at h
      | cons c1 cs1' =>
        cases cs1' with
        | nil => simp at h
        | cons b cs2 =>
          simp only at h
          split at h
          · cases h2 : lastExtSplit (cs2.takeWhile bareAllowedChar) with
            | some sdt =>
              obtain ⟨seg, de, tail⟩ := sdt
              rw [h2] at h
              by_cases hseg : seg.isEmpty
              · simp [hseg] at h
              · simp [hseg] at h
                obtain ⟨-, h4⟩ := h
                have lt := lastExtSplit_tail_length _ seg de tail h2
                have lrun := run_split_length cs2 tail lt
                rw [← h4]
                simp at lrun ⊢
                omega
            | none => rw [h2] at h; simp at h
          · simp at h

/-- Consume the optional closing backtick after a bare-path core match. -/
def bareWithClose (pre core rest : List Char) : BareMatch × List Char :=
  match rest with
  | c2 :: rest' =>
    if c2 = '\x60' then (⟨pre ++ (core ++ ['\x60']), core⟩, rest')
    else (⟨pre ++ core, core⟩, rest)
  | [] => (⟨pre ++ core, core⟩, [])

theorem bareWithClose_length (pre core rest : List Char) :
    (bareWithClose pre core rest).2.length ≤ rest.length := by
  simp only [bareWithClose]
  cases rest with
  | nil => simp
  | cons c2 rest' =>
    by_cases hc : c2 = '\x60'
    · simp [hc]
    · simp [hc]

/-- `BARE_IMAGE_PATH_RE` anchored at the head of `cs`: optional backtick,
the core alternation, optional closing backtick. -/
def matchBarePathAt (cs : List Char) : Option (BareMatch × List Char) :=
  match cs with
  | c0 :: cs1 =>
    if c0 = '\x60' then
      match matchBareCoreAt cs1 with
      | some (core, rest) => some (bareWithClose ['\x60'] core rest)
      | none => none
    else
      match matchBareCoreAt (c0 :: cs1) with
      | some (core, rest) => some (bareWithClose [] core rest)
      | none => none
  | [] => none

theorem matchBarePathAt_length (cs : List Char) (m : BareMatch) (rest : List Char)
    (h : matchBarePathAt cs = some (m, rest)) : rest.length < cs.length := by
  cases cs with
  | nil => simp [matchBarePathAt] at h
  | cons c0 cs1 =>
    simp only [matchBarePathAt] at h
    split at h
    · cases h1 : matchBareCoreAt cs1 with
      | some cr =>
        obtain ⟨core, rest2⟩ := cr
        rw [h1] at h
        simp at h
        have l1 := matchBareCoreAt_length cs1 core rest2 h1
        have l2 := bareWithClose_length ['\x60'] core rest2
        have hsnd := congrArg Prod.snd h
        simp only at hsnd
        rw [← hsnd]
        simp
        omega
      | none => rw [h1] at h; simp at h
    · cases h1 : matchBareCoreAt (c0 :: cs1) with
      | some cr =>
        obtain ⟨core, rest2⟩ := cr
        rw [h1] at h
        simp at h
        have l1 := matchBareCoreAt_length (c0 :: cs1) core rest2 h1
        have l2 := bareWithClose_length [] core rest2
        have hsnd := congrArg Prod.snd h
        simp only at hsnd
        rw [← hsnd]
        omega
      | none => rw [h1] at h; simp at h

/-- All matches of `BARE_IMAGE_PATH_RE` with their indices
(`[...result.matchAll(BARE_IMAGE_PATH_RE)]`). -/
def findBareMatchesFrom (cs : List Char) (idx : Nat) : List (Nat × BareMatch) :=
  match cs with
  | [] => []
  | c :: cs' =>
    match h : matchBarePathAt (c :: cs') with
    | some (m, rest) => (idx, m) :: findBareMatchesFrom rest (idx + m.fullMatch.length)
    | none => findBareMatchesFrom cs' (idx + 1)
termination_by cs.length
decreasing_by
  · exact matchBarePathAt_length _ _ _ h
  · simp

/-- JS `String.prototype.includes` on character lists. -/
def containsSub (pat : List Char) : List Char → Bool
  | [] => (dropPrefixChars pat []).isSome
  | c :: cs => (dropPrefixChars pat (c :: cs)).isSome || containsSub pat cs

/-- Body of the first loop of `processLocalImages`: clean the path
(`rawPath.replace(/\\ /g, " ")`), attempt the upload, and on success replace
the matched markdown image by `` `![${alt}](${mediaId})` ``. -/
def imageUploadStep (upload : String → Option String)
    (acc : List Char × List TransportCall) (m : ImageMatch) :
    List Char × List TransportCall :=
  let cleanPath := String.mk (replaceBackslashSpace m.rawPath)
  match upload cleanPath with
  | some mediaId =>
    (replaceFirstChars m.fullMatch
       ('!' :: '[' :: (m.alt ++ ']' :: '(' :: (mediaId.data ++ [')']))) acc.1,
     acc.2 ++ [.uploadMedia cleanPath])
  | none => (acc.1, acc.2 ++ [.uploadMedia cleanPath])

/-- Body of the second loop of `processLocalImages`: attempt the upload and
on success splice `` `![](${mediaId})` `` in place of the bare path at its
recorded index. -/
def bareUploadStep (upload : String → Option String)
    (acc : List Char × List TransportCall) (im : Nat × BareMatch) :
    List Char × List TransportCall :=
  let rawPath := String.mk im.2.rawPath
  match upload rawPath with
  | some mediaId =>
    (acc.1.take im.1 ++
       replaceFirstChars im.2.fullMatch
         ('!' :: '[' :: ']' :: '(' :: (mediaId.data ++ [')'])) (acc.1.drop im.1),
     acc.2 ++ [.uploadMedia rawPath])
  | none => (acc.1, acc.2 ++ [.uploadMedia rawPath])

/-- `processLocalImages(content, oapiToken, log)` from `media.ts`.  The
outcome of each `uploadMediaToDingTalk` call (a media id, or `null` for a
missing/oversized file or a failed upload) is supplied by the `upload`
oracle; every upload attempted is recorded in the returned trace.
Pass 1 replaces markdown-image matches (first occurrence of the matched
text, as JS `String.replace` with a string pattern does); pass 2 handles
bare paths, filtered by the 10-character look-behind, iterated in reverse
with index-based splicing. -/
def processLocalImages (upload : String → Option String) (oapiToken : Option String)
    (content : String) : String × List TransportCall :=
  if !(strTruthy oapiToken) then (content, [])
  else
    let mdMatches := findLocalImageMatches content.data
    let step1 := mdMatches.foldl (imageUploadStep upload) (content.data, [])
    let result1 := step1.1
    let bareMatches := (findBareMatchesFrom result1 0).filter fun im =>
      let before := (result1.take im.1).drop (im.1 - 10)
      !containsSub [']', '('] before
    let step2 := bareMatches.reverse.foldl (bareUploadStep upload) (result1, step1.2)
    (String.mk step2.1, step2.2)

/-! ## Message payload construction (`send.ts`) -/

/-- Logical message kinds accepted by the proactive send API. -/
inductive DingTalkMsgType where
  | text
  | markdown
  | link
  | actionCard
  | image
deriving Repr, DecidableEq

/-- `msgtype` rendering used in the template `Invalid ${msgType} message format`. -/
def DingTalkMsgType.render : DingTalkMsgType → String
  | .text => "text"
  | .markdown => "markdown"
  | .link => "link"
  | .actionCard => "actionCard"
  | .image => "image"

/-- The `msgParam` shapes built by `buildMsgPayload`. -/
inductive MsgParam where
  | markdownParam (title text : String)
  | jsonParam (raw : String)
  | imageParam (photoURL : String)
  | textParam (content : String)
deriving Repr, DecidableEq

/-- A successfully built payload: `{ msgKey, msgParam }`. -/
structure MsgPayload where
  msgKey : String
  msgParam : MsgParam
deriving Repr, DecidableEq

/-- `buildMsgPayload(msgType, content, title)`: map the logical kind to the
DingTalk `msgKey`/`msgParam` shape.  For `link`/`actionCard` the source runs
`JSON.parse(content)`; whether that parse succeeds is the `parseOk` oracle. -/
def buildMsgPayload (msgType : DingTalkMsgType) (content : String)
    (title : Option String) (parseOk : Bool) : Except String MsgPayload :=
  match msgType with
  | .markdown => .ok ⟨"sampleMarkdown", .markdownParam (jsOrString title "Message") content⟩
  | .link =>
    if parseOk then .ok ⟨"sampleLink", .jsonParam content⟩
    else .error ("Invalid " ++ DingTalkMsgType.link.render ++ " message format")
  | .actionCard =>
    if parseOk then .ok ⟨"sampleActionCard", .jsonParam content⟩
    else .error ("Invalid " ++ DingTalkMsgType.actionCard.render ++ " message format")
  | .image => .ok ⟨"sampleImageMsg", .imageParam content⟩
  | .text => .ok ⟨"sampleText", .textParam content⟩

/-! ## Send results, options and environment (`types.ts`, `send.ts`) -/

/-- `SendResult`. -/
structure SendResult where
  ok : Bool
  usedAICard : Bool := false
  processQueryKey : Option String := none
  error : Option String := none
  cardInstanceId : Option String := none
deriving Repr, DecidableEq

/-- `ProactiveSendOptions` (the `log` member has no observable effect). -/
structure ProactiveSendOptions where
  msgType : Option DingTalkMsgType := none
  title : Option String := none
  useAICard : Option Bool := none
  fallbackToNormal : Option Bool := none
deriving Repr, DecidableEq

/-- Outcome of one batch/group HTTP post: either a response (with optional
`processQueryKey` and `message` fields) or a thrown error whose resolved
message (`err.response?.data?.message || err.message`) is given. -/
inductive HttpOutcome where
  | success (processQueryKey : Option String) (message : Option String)
  | failure (message : Option String)
deriving Repr, DecidableEq

/-- Remote-side outcomes consumed by the send engine. -/
structure SendEnv where
  /-- `getOapiAccessToken` result (`null` on failure). -/
  oapiToken : Option String
  /-- `uploadMediaToDingTalk` outcome per path. -/
  upload : String → Option String
  /-- `createAICardForTarget` outcome (`null` on failure). -/
  createCard : Option AICardInstance
  /-- response of `oToMessages/batchSend`. -/
  userBatch : HttpOutcome
  /-- response of `groupMessages/send`. -/
  groupSend : HttpOutcome
  /-- whether `JSON.parse(content)` succeeds for link/actionCard payloads. -/
  parseOk : Bool

/-- The media post-processing chain at the top of `sendAICardInternal`:
applied only when the OAPI token is truthy. -/
def processRichContent (env : SendEnv) (content : String) : String × List TransportCall :=
  match env.oapiToken with
  | some tok =>
    if tok = "" then (content, [])
    else
      let (c1, acts) := processLocalImages env.upload (some tok) content
      let c2 := processVideoMarkers c1
      let c3 := processAudioMarkers c2
      let c4 := processFileMarkers c3
      (c4, acts)
  | none => (content, [])

/-- `sendAICardInternal(config, target, content, log)` from `send.ts`: fetch
the OAPI token, post-process media, return early on blank content, else
create a card and finish it with the processed content. -/
def sendAICardInternal (env : SendEnv) (target : AICardTarget) (content : String) :
    SendResult × List TransportCall :=
  let (processedContent, acts) := processRichContent env content
  if jsTrim processedContent = "" then
    ({ ok := true, usedAICard := false }, .fetchOapiToken :: acts)
  else
    match env.createCard with
    | none =>
      ({ ok := false, error := some "Failed to create AI Card", usedAICard := false },
       .fetchOapiToken :: (acts ++ [.createCard target]))
    | some card =>
      ({ ok := true, cardInstanceId := some card.cardInstanceId, usedAICard := true },
       .fetchOapiToken :: (acts ++ [.createCard target, .finishAICard card.cardInstanceId processedContent]))

/-- `string | string[]` argument of `sendToUser` / `sendNormalToUser`. -/
abbrev UserIds := Sum String (List String)

/-- `Array.isArray(userIds) ? userIds : [userIds]`. -/
def toUserIdArray : UserIds → List String
  | .inl s => [s]
  | .inr l => l

/-- `resp.data?.message || errMsg.message || "Unknown error"` resolution used
by both plain senders. -/
def httpErrorResult (message : Option String) : SendResult :=
  { ok := false, error := some (jsOrString message "Unknown error"), usedAICard := false }

/-- `sendNormalToUser(config, userIds, content, options)`: build the payload
(failing fast on a malformed link/actionCard), then fetch a token and post a
batch send, branching on the truthiness of `processQueryKey`. -/
def sendNormalToUser (env : SendEnv) (userIds : UserIds) (content : String)
    (opts : ProactiveSendOptions) : SendResult × List TransportCall :=
  let msgType := opts.msgType.getD .text
  let userIdArray := toUserIdArray userIds
  match buildMsgPayload msgType content opts.title env.parseOk with
  | .error e => ({ ok := false, error := some e, usedAICard := false }, [])
  | .ok payload =>
    let acts := [TransportCall.fetchAccessToken, .batchSendUser userIdArray payload.msgKey]
    match env.userBatch with
    | .success pqk msg =>
      if strTruthy pqk then
        ({ ok := true, processQueryKey := some (jsOrString pqk ""), usedAICard := false }, acts)
      else (httpErrorResult msg, acts)
    | .failure msg => (httpErrorResult msg, acts)

/-- `sendNormalToGroup(config, openConversationId, content, options)`. -/
def sendNormalToGroup (env : SendEnv) (openConversationId : String) (content : String)
    (opts : ProactiveSendOptions) : SendResult × List TransportCall :=
  let msgType := opts.msgType.getD .text
  match buildMsgPayload msgType content opts.title env.parseOk with
  | .error e => ({ ok := false, error := some e, usedAICard := false }, [])
  | .ok payload =>
    let acts := [TransportCall.fetchAccessToken, .groupSend openConversationId payload.msgKey]
    match env.groupSend with
    | .success pqk msg =>
      if strTruthy pqk then
        ({ ok := true, processQueryKey := some (jsOrString pqk ""), usedAICard := false }, acts)
      else (httpErrorResult msg, acts)
    | .failure msg => (httpErrorResult msg, acts)

/-- `sendToUser(config, userIds, content, options)`: with rich cards enabled
(default) and exactly one recipient, try the AI-card path first; return its
result if it succeeded or if falling back is explicitly disabled; otherwise
(and for multi-recipient or card-disabled sends) use the plain batch path. -/
def sendToUser (env : SendEnv) (userIds : UserIds) (content : String)
    (opts : ProactiveSendOptions) : SendResult × List TransportCall :=
  let useAICard := opts.useAICard.getD true
  let fallbackToNormal := opts.fallbackToNormal.getD true
  let userIdArray := toUserIdArray userIds
  if useAICard && userIdArray.length == 1 then
    let (cardResult, cardActs) :=
      sendAICardInternal env (.user (userIdArray.headD "")) content
    if cardResult.ok || !fallbackToNormal then (cardResult, cardActs)
    else
      let (nr, nActs) := sendNormalToUser env (.inr userIdArray) content opts
      (nr, cardActs ++ nActs)
  else sendNormalToUser env (.inr userIdArray) content opts

/-- `sendToGroup(config, openConversationId, content, options)`. -/
def sendToGroup (env : SendEnv) (openConversationId : String) (content : String)
    (opts : ProactiveSendOptions) : SendResult × List TransportCall :=
  let useAICard := opts.useAICard.getD true
  let fallbackToNormal := opts.fallbackToNormal.getD true
  if useAICard then
    let (cardResult, cardActs) :=
      sendAICardInternal env (.group openConversationId) content
    if cardResult.ok || !fallbackToNormal then (cardResult, cardActs)
    else
      let (nr, nActs) := sendNormalToGroup env openConversationId content opts
      (nr, cardActs ++ nActs)
  else sendNormalToGroup env openConversationId content opts

/-- The markdown-detection heuristic
`/^[#*>-]|[*_`#\[\]]/.test(content) || content.includes("\n")`. -/
def hasMarkdownSignal (content : String) : Bool :=
  (match content.data with
   | [] => false
   | c :: _ => c = '#' || c = '*' || c = '>' || c = '-') ||
  content.data.any (fun c =>
    c = '*' || c = '_' || c = '\x60' || c = '#' || c = '[' || c = ']') ||
  content.data.contains '\n'

/-- The loosely-typed proactive target selector. -/
structure ProactiveTarget where
  userId : Option String := none
  userIds : Option (List String) := none
  openConversationId : Option String := none
deriving Repr, DecidableEq

/-- `sendProactive(config, target, content, options)`: default the formatting
mode by sniffing markdown, then dispatch on the selector.  JS truthiness: an
empty-string id is absent, an array (even empty) is present. -/
def sendProactive (env : SendEnv) (target : ProactiveTarget) (content : String)
    (opts : ProactiveSendOptions) : SendResult × List TransportCall :=
  let opts :=
    if opts.msgType.isNone && hasMarkdownSignal content then
      { opts with msgType := some .markdown }
    else opts
  if strTruthy target.userId || target.userIds.isSome then
    sendToUser env
      (match target.userIds with
       | some l => .inr l
       | none => .inl (target.userId.getD ""))
      content opts
  else if strTruthy target.openConversationId then
    sendToGroup env (target.openConversationId.getD "") content opts
  else
    ({ ok := false, error := some "Must specify userId, userIds, or openConversationId",
       usedAICard := false }, [])

/-! ## Per-turn reply dispatcher (`reply-dispatcher.ts`)

One dispatcher instance per inbound turn.  Its mutable state is the pair
`card` / `cardCreationPromise`; a pending creation is modelled by the outcome
it will produce (`some o`, where `o` is the card, or `none` when creation
failed — the IIFE catches errors and assigns `card = null`).  Awaiting the
promise applies the outcome to `card`; re-awaiting a settled promise is
idempotent, as in the source. -/

/-- Dispatcher state: `let card`, `let cardCreationPromise`. -/
structure DispatchState where
  card : Option AICardInstance
  cardCreationPromise : Option (Option AICardInstance)
deriving Repr, DecidableEq

/-- Externally visible effect of the dispatcher. -/
inductive DispatchAction where
  /-- `finishAICard(card, text)` via `closeCard`. -/
  | finishCard (cardInstanceId : String) (content : String)
  /-- `sendPlainText(chunk)` — one chunk handed to the outbound engine
  (`sendToUser` for DMs, `sendToGroup` for groups), awaited before the next. -/
  | sendPlain (chunk : String)
deriving Repr, DecidableEq

/-- `startCard()`: no-op if a creation is already in flight or a card exists;
otherwise start the creation whose eventual outcome is `outcome`.  The
returned flag records whether a creation attempt was made. -/
def startCard (outcome : Option AICardInstance) (st : DispatchState) :
    DispatchState × Bool :=
  if st.cardCreationPromise.isSome || st.card.isSome then (st, false)
  else ({ st with cardCreationPromise := some outcome }, true)

/-- `if (cardCreationPromise) await cardCreationPromise`: once awaited, the
creation has assigned `card`. -/
def awaitCardCreation (st : DispatchState) : DispatchState :=
  match st.cardCreationPromise with
  | some outcome => { st with card := outcome }
  | none => st

/-- `closeCard(finalText)`: await any pending creation; if a card exists,
finish it with `finalText || "Done"` and clear it; always clear the promise. -/
def closeCard (finalText : String) (st : DispatchState) :
    DispatchState × List DispatchAction :=
  let st1 := awaitCardCreation st
  match st1.card with
  | some c =>
    (⟨none, none⟩, [.finishCard c.cardInstanceId (if finalText = "" then "Done" else finalText)])
  | none => ({ st1 with cardCreationPromise := none }, [])

/-- Fragment annotation: `info?.kind === "final"`; everything else (including
an absent `info`) is an intermediate fragment. -/
inductive FragKind where
  | intermediate
  | final
deriving Repr, DecidableEq

/-- Modelled from the spec: `chunkTextWithMode` lives in the host SDK
(`core.channel.text`), outside the files under verification.  Per the spec it
splits text into size-bounded chunks according to the configured limit and
chunk mode; it is modelled as splitting into consecutive runs of at most
`limit` characters (at least 1, so a degenerate limit still terminates). -/
def chunkChars (limit : Nat) (cs : List Char) : List (List Char) :=
  match cs with
  | [] => []
  | c :: cs' =>
    (c :: cs').take (max limit 1) :: chunkChars limit ((c :: cs').drop (max limit 1))
termination_by cs.length
decreasing_by
  simp

/-- Modelled from the spec: see `chunkChars`.  The chunk mode only influences
where splits fall, never the size bound, and is not modelled further. -/
def chunkTextWithMode (text : String) (limit : Nat) : List String :=
  (chunkChars limit text.data).map String.mk

/-- `deliver(payload, info)` from the dispatcher configuration: ignore blank
fragments; await any pending creation; with a card, finalize on a `final`
fragment (and do nothing visible otherwise); without a card, chunk the text
and send each chunk through the plain-text path in order. -/
def deliver (textChunkLimit : Nat) (payloadText : Option String) (kind : FragKind)
    (st : DispatchState) : DispatchState × List DispatchAction :=
  let text := payloadText.getD ""
  if jsTrim text = "" then (st, [])
  else
    let st1 := awaitCardCreation st
    match st1.card with
    | some _ => if kind = .final then closeCard text st1 else (st1, [])
    | none =>
      (st1, (chunkTextWithMode text textChunkLimit).map .sendPlain)

/-- One event observed by a dispatcher instance: the reply-start signal (which
triggers `startCard` both directly and through the typing-callback `start`),
or one reply fragment. -/
inductive TurnEvent where
  | replyStart (creationOutcome : Option AICardInstance)
  | fragment (payloadText : Option String) (kind : FragKind)
deriving Repr, DecidableEq

/-- Whether an event is a `final`-annotated fragment. -/
def TurnEvent.isFinalFragment : TurnEvent → Bool
  | .fragment _ .final => true
  | _ => false

/-- Accumulated run of one dispatcher instance: state, number of
card-creation attempts, actions emitted so far. -/
structure TurnAcc where
  st : DispatchState
  attempts : Nat
  actions : List DispatchAction
deriving Repr, DecidableEq

/-- Process one event.  `onReplyStart` calls `startCard()` and then the
typing-callback `start`, which calls `startCard()` again. -/
def turnStep (textChunkLimit : Nat) (acc : TurnAcc) : TurnEvent → TurnAcc
  | .replyStart o =>
    let (st1, b1) := startCard o acc.st
    let (st2, b2) := startCard o st1
    ⟨st2, acc.attempts + (if b1 then 1 else 0) + (if b2 then 1 else 0), acc.actions⟩
  | .fragment payloadText kind =>
    let (st', acts) := deliver textChunkLimit payloadText kind acc.st
    ⟨st', acc.attempts, acc.actions ++ acts⟩

/-- Run a dispatcher instance from its initial state over a list of events. -/
def runTurn (textChunkLimit : Nat) (evs : List TurnEvent) : TurnAcc :=
  evs.foldl (turnStep textChunkLimit) ⟨⟨none, none⟩, 0, []⟩

/-- Number of card finalizations in an action trace. -/
def countFinish (acts : List DispatchAction) : Nat :=
  acts.countP fun a => match a with | .finishCard _ _ => true | _ => false

/-! ## Gateway stop handling (`channel.ts`, `startAccount`)

After the client connects, a `stopped` flag guards both the abort-signal
listener and the returned `stop` function; both run the same body:
`if (stopped) return; stopped = true; client.disconnect(); activity.record(...)`. -/

/-- Externally visible effects of the stop machinery. -/
inductive GatewayAction where
  | disconnect
  | recordActivity
deriving Repr, DecidableEq

/-- One firing of either the abort listener or the `stop` function. -/
def stopOnce (stopped : Bool) : Bool × List GatewayAction :=
  if stopped then (stopped, [])
  else (true, [.disconnect, .recordActivity])

/-- Run a sequence of stop/abort firings from a given flag state, collecting
the emitted actions. -/
def runStops (stopped : Bool) (n : Nat) : Bool × List GatewayAction :=
  match n with
  | 0 => (stopped, [])
  | n + 1 =>
    let (s1, a1) := stopOnce stopped
    let (s2, a2) := runStops s1 n
    (s2, a1 ++ a2)

/-! ## Inbound message handling (`bot.ts`)

`extractMessageContent` and the opening of `handleDingTalkMessage`, up to and
including the new-session-command branch.  The remainder of the handler
(route resolution, envelope construction, dispatch) only invokes host-SDK
collaborators; it is abstracted as the externally visible steps the spec
names. -/

/-- One entry of `data.content.richText`. -/
structure RichTextPart where
  type : String
  text : String
deriving Repr, DecidableEq

/-- `data.text` (`{ content?: string }`). -/
structure TextBody where
  content : Option String
deriving Repr, DecidableEq

/-- `data.content` fields read by `extractMessageContent`. -/
structure ContentBody where
  richText : Option (List RichTextPart) := none
  recognition : Option String := none
  fileName : Option String := none
deriving Repr, DecidableEq

/-- The inbound event payload fields read by the handler. -/
structure InboundData where
  msgtype : Option String := none
  text : Option TextBody := none
  content : Option ContentBody := none
  conversationType : Option String := none
  senderStaffId : Option String := none
  senderId : Option String := none
  senderNick : Option String := none
  conversationId : Option String := none
  msgId : Option String := none
deriving Repr, DecidableEq

/-- Result of `extractMessageContent`. -/
structure MessageContent where
  text : String
  messageType : String
deriving Repr, DecidableEq

/-- `data.text?.content?.trim() || ""`. -/
def trimmedTextContent (data : InboundData) : String :=
  match data.text with
  | some tb =>
    match tb.content with
    | some s => jsTrim s
    | none => ""
  | none => ""

/-- `extractMessageContent(data)` from `bot.ts`. -/
def extractMessageContent (data : InboundData) : MessageContent :=
  let msgtype := jsOrString data.msgtype "text"
  if msgtype = "text" then
    ⟨trimmedTextContent data, "text"⟩
  else if msgtype = "richText" then
    let parts := match data.content with
      | some cb => cb.richText.getD []
      | none => []
    let text := String.join ((parts.filter fun p => p.type = "text").map fun p => p.text)
    ⟨if text = "" then "[richText]" else text, "richText"⟩
  else if msgtype = "picture" then ⟨"[picture]", "picture"⟩
  else if msgtype = "audio" then
    ⟨jsOrString (data.content.bind ContentBody.recognition) "[audio]", "audio"⟩
  else if msgtype = "video" then ⟨"[video]", "video"⟩
  else if msgtype = "file" then
    ⟨"[file: " ++ jsOrString (data.content.bind ContentBody.fileName) "file" ++ "]", "file"⟩
  else
    ⟨jsOrString (some (trimmedTextContent data)) ("[" ++ msgtype ++ "]"), msgtype⟩

/-- Externally visible steps of the inbound handler. -/
inductive HandlerStep where
  /-- `getSessionKey(senderId, true, sessionTimeout, log)` in the
  new-session-command branch. -/
  | sessionRotate (senderId : String)
  /-- `core.channel.routing.resolveAgentRoute(...)`. -/
  | routeResolve
  /-- envelope construction plus `dispatchReplyFromConfig` — the reply
  pipeline for this event. -/
  | replyDispatch
deriving Repr, DecidableEq

/-- `handleDingTalkMessage` from `bot.ts`, through the new-session-command
branch; the remaining route/envelope/dispatch tail is abstracted as
`routeResolve` and `replyDispatch` steps. -/
def handleDingTalkMessage (data : InboundData) (sessionTimeout : Option Int)
    (now : Nat) (sessions : SessionMap) : SessionMap × List HandlerStep :=
  let content := extractMessageContent data
  if content.text = "" then (sessions, [])
  else
    let senderId := jsOrString data.senderStaffId (jsOrString data.senderId "")
    let timeout := sessionTimeout.getD 1800000
    if isNewSessionCommand content.text then
      let r := getSessionKey senderId true timeout now sessions
      (r.2, [.sessionRotate senderId])
    else
      (sessions, [.routeResolve, .replyDispatch])

/-! ## Support lemmas: blank strings and the scanners -/

theorem jsTrim_of_all_ws {s : String} (h : ∀ c ∈ s.data, c.isWhitespace) :
    jsTrim s = "" := by
  have h1 : s.data.dropWhile Char.isWhitespace = [] :=
    List.dropWhile_eq_nil_iff.mpr fun c hc => h c hc
  simp [jsTrim, trimChars, h1]

theorem matchMarkerAt_whitespace {c : Char} (hw : c.isWhitespace = true)
    (tag : String) (cs : List Char) : matchMarkerAt tag (c :: cs) = none := by
  obtain ⟨h1, -, -, -, -⟩ := whitespace_not_anchor hw
  have hdata : ("[" ++ tag ++ "]").data = '[' :: (tag ++ "]").data := by
    simp [String.data_append]
  simp only [matchMarkerAt, hdata, dropPrefixChars]
  simp [h1]

theorem replaceMarkers_all_ws (tag : String) :
    ∀ cs : List Char, (∀ c ∈ cs, c.isWhitespace) → replaceMarkers tag cs = cs := by
  intro cs
  induction cs with
  | nil => intro _; rw [replaceMarkers]
  | cons c cs' ih =>
    intro h
    have hw := h c (by simp)
    have hnone := matchMarkerAt_whitespace hw tag cs'
    rw [replaceMarkers]
    split
    · rename_i rest heq
      rw [hnone] at heq
      exact absurd heq (by simp)
    · rw [ih fun d hd => h d (by simp [hd])]

theorem processVideoMarkers_all_ws {s : String} (h : ∀ c ∈ s.data, c.isWhitespace) :
    processVideoMarkers s = "" := by
  unfold processVideoMarkers
  rw [replaceMarkers_all_ws _ _ h]
  exact jsTrim_of_all_ws h

theorem matchLocalImageAt_whitespace {c : Char} (hw : c.isWhitespace = true)
    (cs : List Char) : matchLocalImageAt (c :: cs) = none := by
  obtain ⟨-, h2, -, -, -⟩ := whitespace_not_anchor hw
  cases cs with
  | nil => simp [matchLocalImageAt]
  | cons c1 cs' => simp [matchLocalImageAt, h2]

theorem findLocalImageMatches_all_ws :
    ∀ cs : List Char, (∀ c ∈ cs, c.isWhitespace) → findLocalImageMatches cs = [] := by
  intro cs
  induction cs with
  | nil => intro _; rw [findLocalImageMatches]
  | cons c cs' ih =>
    intro h
    have hw := h c (by simp)
    rw [findLocalImageMatches]
    split
    · rename_i m rest heq
      rw [matchLocalImageAt_whitespace hw cs'] at heq
      exact absurd heq (by simp)
    · exact ih fun d hd => h d (by simp [hd])

theorem matchBareCoreAt_whitespace {c : Char} (hw : c.isWhitespace = true)
    (cs : List Char) : matchBareCoreAt (c :: cs) = none := by
  obtain ⟨-, -, h3, -, h5⟩ := whitespace_not_anchor hw
  simp only [matchBareCoreAt]
  rw [if_neg h3]
  cases cs with
  | nil => simp
  | cons c1 cs' =>
    cases cs' with
    | nil => simp
    | cons b cs2 => simp [h5]

theorem matchBarePathAt_whitespace {c : Char} (hw : c.isWhitespace = true)
    (cs : List Char) : matchBarePathAt (c :: cs) = none := by
  obtain ⟨-, -, -, h4, -⟩ := whitespace_not_anchor hw
  simp only [matchBarePathAt]
  rw [if_neg h4, matchBareCoreAt_whitespace hw cs]

theorem findBareMatchesFrom_all_ws :
    ∀ (cs : List Char), (∀ c ∈ cs, c.isWhitespace) → ∀ idx,
      findBareMatchesFrom cs idx = [] := by
  intro cs
  induction cs with
  | nil => intro _ idx; rw [findBareMatchesFrom]
  | cons c cs' ih =>
    intro h idx
    have hw := h c (by simp)
    rw [findBareMatchesFrom]
    split
    · rename_i m rest heq
      rw [matchBarePathAt_whitespace hw cs'] at heq
      exact absurd heq (by simp)
    · exact ih (fun d hd => h d (by simp [hd])) (idx + 1)

theorem processLocalImages_all_ws (upload : String → Option String)
    (tok : Option String) {content : String}
    (h : ∀ c ∈ content.data, c.isWhitespace) :
    processLocalImages upload tok content = (content, []) := by
  unfold processLocalImages
  by_cases htok : strTruthy tok
  · simp only [htok, Bool.not_true, Bool.false_eq_true, if_false]
    rw [findLocalImageMatches_all_ws content.data h]
    simp only [List.foldl_nil]
    rw [findBareMatchesFrom_all_ws content.data h 0]
    simp
  · simp [htok]

/-! ## Trace characterization of the send paths -/

/-- Calls made only by the rich-card path (`sendAICardInternal` and the media
pipeline it runs). -/
def TransportCall.isCardPathCall : TransportCall → Bool
  | .fetchOapiToken => true
  | .uploadMedia _ => true
  | .createCard _ => true
  | .finishAICard _ _ => true
  | .fetchAccessToken => false
  | .batchSendUser _ _ => false
  | .groupSend _ _ => false

theorem imageUploadStep_acts (upload : String → Option String)
    (acc : List Char × List TransportCall) (m : ImageMatch) :
    (imageUploadStep upload acc m).2 =
      acc.2 ++ [.uploadMedia (String.mk (replaceBackslashSpace m.rawPath))] := by
  simp only [imageUploadStep]
  cases upload (String.mk (replaceBackslashSpace m.rawPath)) <;> simp

theorem bareUploadStep_acts (upload : String → Option String)
    (acc : List Char × List TransportCall) (im : Nat × BareMatch) :
    (bareUploadStep upload acc im).2 = acc.2 ++ [.uploadMedia (String.mk im.2.rawPath)] := by
  simp only [bareUploadStep]
  cases upload (String.mk im.2.rawPath) <;> simp

theorem foldl_imageUploadStep_acts (upload : String → Option String) :
    ∀ (ms : List ImageMatch) (acc : List Char × List TransportCall),
      ∀ a ∈ (ms.foldl (imageUploadStep upload) acc).2,
        a ∈ acc.2 ∨ ∃ p, a = TransportCall.uploadMedia p := by
  intro ms
  induction ms with
  | nil => intro acc a ha; exact Or.inl ha
  | cons m ms' ih =>
    intro acc a ha
    rcases ih (imageUploadStep upload acc m) a ha with h | h
    · rw [imageUploadStep_acts] at h
      rcases List.mem_append.mp h with h' | h'
      · exact Or.inl h'
      · simp at h'
        exact Or.inr ⟨_, h'⟩
    · exact Or.inr h

theorem foldl_bareUploadStep_acts (upload : String → Option String) :
    ∀ (ms : List (Nat × BareMatch)) (acc : List Char × List TransportCall),
      ∀ a ∈ (ms.foldl (bareUploadStep upload) acc).2,
        a ∈ acc.2 ∨ ∃ p, a = TransportCall.uploadMedia p := by
  intro ms
  induction ms with
  | nil => intro acc a ha; exact Or.inl ha
  | cons m ms' ih =>
    intro acc a ha
    rcases ih (bareUploadStep upload acc m) a ha with h | h
    · rw [bareUploadStep_acts] at h
      rcases List.mem_append.mp h with h' | h'
      · exact Or.inl h'
      · simp at h'
        exact Or.inr ⟨_, h'⟩
    · exact Or.inr h

theorem processLocalImages_acts_upload (upload : String → Option String)
    (tok : Option String) (content : String) :
    ∀ a ∈ (processLocalImages upload tok content).2,
      ∃ p, a = TransportCall.uploadMedia p := by
  intro a ha
  simp only [processLocalImages] at ha
  by_cases htok : strTruthy tok
  · simp only [htok, Bool.not_true, Bool.false_eq_true, if_false] at ha
    rcases foldl_bareUploadStep_acts upload _ _ a ha with h | h
    · rcases foldl_imageUploadStep_acts upload _ _ a h with h' | h'
      · simp at h'
      · exact h'
    · exact h
  · simp [htok] at ha

theorem processRichContent_acts_upload (env : SendEnv) (content : String) :
    ∀ a ∈ (processRichContent env content).2,
      ∃ p, a = TransportCall.uploadMedia p := by
  intro a ha
  simp only [processRichContent] at ha
  cases htok : env.oapiToken with
  | none => rw [htok] at ha; simp at ha
  | some tok =>
    rw [htok] at ha
    by_cases h0 : tok = ""
    · simp [h0] at ha
    · simp only [h0, if_false] at ha
      exact processLocalImages_acts_upload env.upload (some tok) content a ha

/-- Every call in the trace of `sendAICardInternal` belongs to the card
path. -/
theorem sendAICardInternal_acts_card (env : SendEnv) (target : AICardTarget)
    (content : String) :
    ∀ a ∈ (sendAICardInternal env target content).2, a.isCardPathCall = true := by
  intro a ha
  have hup := processRichContent_acts_upload env content
  simp only [sendAICardInternal] at ha
  split at ha
  · simp at ha
    rcases ha with rfl | ha
    · rfl
    · obtain ⟨p, rfl⟩ := hup a ha
      rfl
  · cases hc : env.createCard with
    | none =>
      rw [hc] at ha
      simp at ha
      rcases ha with rfl | ha | rfl
      · rfl
      · obtain ⟨p, rfl⟩ := hup a ha
        rfl
      · rfl
    | some card =>
      rw [hc] at ha
      simp at ha
      rcases ha with rfl | ha | rfl | rfl
      · rfl
      · obtain ⟨p, rfl⟩ := hup a ha
        rfl
      · rfl
      · rfl

/-- The rich path always opens with the OAPI token fetch. -/
theorem sendAICardInternal_fetches_token (env : SendEnv) (target : AICardTarget)
    (content : String) :
    TransportCall.fetchOapiToken ∈ (sendAICardInternal env target content).2 := by
  simp only [sendAICardInternal]
  split
  · simp
  · cases hc : env.createCard <;> simp

/-- Every call in the trace of `sendNormalToUser` belongs to the plain
path. -/
theorem sendNormalToUser_acts_plain (env : SendEnv) (userIds : UserIds)
    (content : String) (opts : ProactiveSendOptions) :
    ∀ a ∈ (sendNormalToUser env userIds content opts).2, a.isCardPathCall = false := by
  intro a ha
  simp only [sendNormalToUser] at ha
  split at ha
  · simp at ha
  · cases hb : env.userBatch with
    | success pqk msg =>
      rw [hb] at ha
      by_cases hq : strTruthy pqk
      · simp [hq] at ha
        rcases ha with rfl | rfl <;> rfl
      · simp [hq] at ha
        rcases ha with rfl | rfl <;> rfl
    | failure msg =>
      rw [hb] at ha
      simp at ha
      rcases ha with rfl | rfl <;> rfl

/-- Every call in the trace of `sendNormalToGroup` belongs to the plain
path. -/
theorem sendNormalToGroup_acts_plain (env : SendEnv) (cid : String)
    (content : String) (opts : ProactiveSendOptions) :
    ∀ a ∈ (sendNormalToGroup env cid content opts).2, a.isCardPathCall = false := by
  intro a ha
  simp only [sendNormalToGroup] at ha
  split at ha
  · simp at ha
  · cases hb : env.groupSend with
    | success pqk msg =>
      rw [hb] at ha
      by_cases hq : strTruthy pqk
      · simp [hq] at ha
        rcases ha with rfl | rfl <;> rfl
      · simp [hq] at ha
        rcases ha with rfl | rfl <;> rfl
    | failure msg =>
      rw [hb] at ha
      simp at ha
      rcases ha with rfl | rfl <;> rfl

/-! ## Map lemmas -/

theorem mapGet_mapSet_self {α : Type} :
    ∀ (m : List (String × α)) (k : String) (v : α), mapGet (mapSet m k v) k = some v := by
  intro m
  induction m with
  | nil => intro k v; simp [mapSet, mapGet]
  | cons e rest ih =>
    intro k v
    obtain ⟨k', v'⟩ := e
    simp only [mapSet]
    by_cases hk : k' = k
    · simp [hk, mapGet]
    · simp only [hk, if_false, mapGet]
      exact ih k v

/-- The entry freshly written by the sweep-triggering insertion survives the
sweep: its age is zero, and no earlier entry shares its key. -/
theorem mapGet_cleanup_mapSet :
    ∀ (store : MessageMap) (m : String) (now : Nat),
      mapGet (cleanupProcessedMessages now (mapSet store m now)) m = some now := by
  intro store
  induction store with
  | nil =>
    intro m now
    simp [mapSet, cleanupProcessedMessages, mapGet]
  | cons e rest ih =>
    intro m now
    obtain ⟨k, v⟩ := e
    simp only [mapSet]
    by_cases hk : k = m
    · simp only [hk, if_true]
      have hkeep : !((now : Int) - ((now : Nat) : Int) > (MESSAGE_DEDUP_TTL : Int)) = true := by
        simp [MESSAGE_DEDUP_TTL]
      simp [cleanupProcessedMessages, hkeep, mapGet]
    · simp only [hk, if_false]
      simp only [cleanupProcessedMessages, List.filter]
      split
      · simp only [mapGet]
        rw [if_neg hk]
        exact ih m now
      · exact ih m now

/-! ## Claim theorems: session store -/

/-- C1, counterexample: the claim asserts that a forced rotation always
returns a key different from every previously returned key for the sender,
even when two rotations observe the same current-time millisecond.  On the
code, two consecutive forced rotations for `"u"` that both read
`Date.now() = 1000` return the identical key `"dingtalk-connector:u:1000"`. -/
theorem getSessionKey_forceNew_same_millisecond_collision :
    (getSessionKey "u" true 1800000 1000 []).1.isNew = true ∧
    (getSessionKey "u" true 1800000 1000
        (getSessionKey "u" true 1800000 1000 []).2).1.isNew = true ∧
    (getSessionKey "u" true 1800000 1000
        (getSessionKey "u" true 1800000 1000 []).2).1.sessionKey =
      (getSessionKey "u" true 1800000 1000 []).1.sessionKey ∧
    (getSessionKey "u" true 1800000 1000 []).1.sessionKey =
      "dingtalk-connector:u:1000" := by
  refine ⟨rfl, rfl, rfl, ?_⟩
  decide

/-- C1 (amended): a forced rotation always reports `isNew = true` and returns
the key `dingtalk-connector:<sender>:<now>`; that key differs from the
sender's non-timestamped first-contact key, and rotated keys observed at
distinct milliseconds are distinct — but rotations in the same millisecond
return the same key. -/
theorem getSessionKey_forceNew_rotates (s : String) (timeout : Int) (now : Nat)
    (st : SessionMap) :
    (getSessionKey s true timeout now st).1 = ⟨sessionRotatedKey s now, true⟩ ∧
    (getSessionKey s true timeout now st).2 =
      mapSet st s ⟨now, sessionRotatedKey s now⟩ ∧
    sessionRotatedKey s now ≠ sessionBaseKey s ∧
    (∀ t t' : Nat, t ≠ t' → sessionRotatedKey s t ≠ sessionRotatedKey s t') :=
  ⟨rfl, rfl, sessionRotatedKey_ne_baseKey s now,
    fun _ _ h => sessionRotatedKey_inj s h⟩

theorem getSessionKey_forceNew_rotates_witness :
    (getSessionKey "u" true 1800000 1000 []).1 = ⟨sessionRotatedKey "u" 1000, true⟩ ∧
    sessionRotatedKey "u" 1000 ≠ sessionRotatedKey "u" 1001 :=
  ⟨(getSessionKey_forceNew_rotates "u" 1800000 1000 []).1,
   (getSessionKey_forceNew_rotates "u" 1800000 1000 []).2.2.2 1000 1001 (by decide)⟩

/-- C4: non-forced session resolution.  (a) A first-ever call creates a
session keyed from the sender id alone and reports `isNew = false`; (b) with
a live session within the timeout, the existing key is returned with
`isNew = false` and `lastActivity` is refreshed; (c) hence two non-forced
calls within the timeout return the same key, the second reporting
`isNew = false`; (d) past the timeout the session rotates with
`isNew = true`. -/
theorem getSessionKey_noForce_spec (s : String) (timeout : Int) (now : Nat)
    (st : SessionMap) :
    (mapGet st s = none →
      getSessionKey s false timeout now st =
        (⟨sessionBaseKey s, false⟩, mapSet st s ⟨now, sessionBaseKey s⟩)) ∧
    (∀ ex, mapGet st s = some ex →
      (now : Int) - (ex.lastActivity : Int) ≤ timeout →
      getSessionKey s false timeout now st =
        (⟨ex.sessionId, false⟩, mapSet st s ⟨now, ex.sessionId⟩)) ∧
    (∀ ex, mapGet st s = some ex →
      (now : Int) - (ex.lastActivity : Int) > timeout →
      (getSessionKey s false timeout now st).1 = ⟨sessionRotatedKey s now, true⟩) ∧
    (∀ t2 : Nat, (t2 : Int) - (now : Int) ≤ timeout →
      (getSessionKey s false timeout t2 (getSessionKey s false timeout now st).2).1 =
        ⟨(getSessionKey s false timeout now st).1.sessionKey, false⟩) := by
  refine ⟨?_, ?_, ?_, ?_⟩
  · intro hget
    simp [getSessionKey, hget]
  · intro ex hget hle
    simp [getSessionKey, hget, not_lt.mpr hle]
  · intro ex hget hgt
    simp [getSessionKey, hget, hgt]
  · intro t2 hle
    -- every branch of the first call stores `lastActivity = now`
    simp only [getSessionKey]
    cases hget : mapGet st s with
    | none =>
      simp only [hget, if_false, Bool.false_eq_true]
      rw [mapGet_mapSet_self]
      simp [not_lt.mpr hle]
    | some ex =>
      simp only [hget, if_false, Bool.false_eq_true]
      by_cases hgt : (now : Int) - (ex.lastActivity : Int) > timeout
      · simp only [hgt, if_true]
        rw [mapGet_mapSet_self]
        simp [not_lt.mpr hle]
      · simp only [hgt, if_false]
        rw [mapGet_mapSet_self]
        simp [not_lt.mpr hle]

theorem getSessionKey_noForce_spec_witness :
    getSessionKey "u" false 1800000 5 [] =
      (⟨sessionBaseKey "u", false⟩, mapSet [] "u" ⟨5, sessionBaseKey "u"⟩) ∧
    (getSessionKey "u" false 1800000 7
        (getSessionKey "u" false 1800000 5 []).2).1 =
      ⟨(getSessionKey "u" false 1800000 5 []).1.sessionKey, false⟩ :=
  ⟨(getSessionKey_noForce_spec "u" 1800000 5 []).1 (by decide),
   (getSessionKey_noForce_spec "u" 1800000 5 []).2.2.2 7 (by decide)⟩

/-! ## Claim theorems: message deduplication -/

/-- C5: (a) empty ids are no-ops (`isMessageProcessed` is `false`,
`markMessageProcessed` leaves the store unchanged); (b) an id not in the
store is reported unprocessed; (c) after `markMessageProcessed` the id is
reported processed — even when the insertion triggers the sweep, since the
fresh entry's age is zero; (d) the sweep runs exactly when the store's size
has reached 100 after the insertion; (e) the sweep keeps precisely the
entries whose age does not exceed the 5-minute TTL. -/
theorem messageDedup_spec (m : String) (now : Nat) (store : MessageMap) :
    (isMessageProcessed "" store = false ∧ markMessageProcessed "" now store = store) ∧
    (m ≠ "" → mapGet store m = none → isMessageProcessed m store = false) ∧
    (m ≠ "" → isMessageProcessed m (markMessageProcessed m now store) = true) ∧
    (m ≠ "" → (mapSet store m now).length < 100 →
      markMessageProcessed m now store = mapSet store m now) ∧
    (m ≠ "" → (mapSet store m now).length ≥ 100 →
      markMessageProcessed m now store =
        cleanupProcessedMessages now (mapSet store m now)) ∧
    (∀ e : String × Nat, e ∈ cleanupProcessedMessages now store ↔
      e ∈ store ∧ (now : Int) - (e.2 : Int) ≤ (MESSAGE_DEDUP_TTL : Int)) := by
  refine ⟨⟨rfl, rfl⟩, ?_, ?_, ?_, ?_, ?_⟩
  · intro hm hget
    simp [isMessageProcessed, hm, hget]
  · intro hm
    simp only [markMessageProcessed, hm, if_false]
    by_cases hsize : (mapSet store m now).length ≥ 100
    · simp only [hsize, if_true, isMessageProcessed, hm]
      simp [mapGet_cleanup_mapSet]
    · simp only [hsize, if_false, isMessageProcessed, hm]
      simp [mapGet_mapSet_self]
  · intro hm hsize
    simp [markMessageProcessed, hm, Nat.not_le.mpr hsize]
  · intro hm hsize
    simp [markMessageProcessed, hm, hsize]
  · intro e
    simp only [cleanupProcessedMessages, List.mem_filter]
    constructor
    · rintro ⟨h1, h2⟩
      simp at h2
      exact ⟨h1, by omega⟩
    · rintro ⟨h1, h2⟩
      refine ⟨h1, ?_⟩
      simp
      omega

theorem messageDedup_spec_witness :
    isMessageProcessed "msg-1" [] = false ∧
    isMessageProcessed "msg-1" (markMessageProcessed "msg-1" 17 []) = true ∧
    markMessageProcessed "msg-1" 17 [] = mapSet [] "msg-1" 17 :=
  ⟨(messageDedup_spec "msg-1" 17 []).2.1 (by decide) rfl,
   (messageDedup_spec "msg-1" 17 []).2.2.1 (by decide),
   (messageDedup_spec "msg-1" 17 []).2.2.2.1 (by decide) (by decide)⟩

/-! ## Claim theorems: inbound reset commands -/

/-- C9: when the extracted text of an inbound event is exactly one of the
configured reset commands, the handler rotates the sender's session via a
forced `getSessionKey` (which reports `isNew = true`) and returns at once:
no route resolution and no reply dispatch occur for that event. -/
theorem handleDingTalkMessage_reset (data : InboundData) (tOpt : Option Int)
    (now : Nat) (st : SessionMap)
    (hcmd : (extractMessageContent data).text ∈ NEW_SESSION_COMMANDS) :
    handleDingTalkMessage data tOpt now st =
      ((getSessionKey (jsOrString data.senderStaffId (jsOrString data.senderId ""))
          true (tOpt.getD 1800000) now st).2,
       [.sessionRotate (jsOrString data.senderStaffId (jsOrString data.senderId ""))]) ∧
    (getSessionKey (jsOrString data.senderStaffId (jsOrString data.senderId ""))
        true (tOpt.getD 1800000) now st).1.isNew = true ∧
    HandlerStep.routeResolve ∉ (handleDingTalkMessage data tOpt now st).2 ∧
    HandlerStep.replyDispatch ∉ (handleDingTalkMessage data tOpt now st).2 := by
  have htext : ¬((extractMessageContent data).text = "") := by
    simp [NEW_SESSION_COMMANDS] at hcmd
    rcases hcmd with h | h | h | h | h | h <;> (rw [h]; decide)
  have hisCmd : isNewSessionCommand (extractMessageContent data).text = true := by
    simp [NEW_SESSION_COMMANDS] at hcmd
    rcases hcmd with h | h | h | h | h | h <;> (rw [h]; decide)
  have hmain : handleDingTalkMessage data tOpt now st =
      ((getSessionKey (jsOrString data.senderStaffId (jsOrString data.senderId ""))
          true (tOpt.getD 1800000) now st).2,
       [.sessionRotate (jsOrString data.senderStaffId (jsOrString data.senderId ""))]) := by
    simp [handleDingTalkMessage, htext, hisCmd]
  refine ⟨hmain, rfl, ?_, ?_⟩ <;> (rw [hmain]; simp)

theorem handleDingTalkMessage_reset_witness :
    (extractMessageContent
        { msgtype := some "text", text := some ⟨some "/reset"⟩,
          conversationType := some "1", senderStaffId := some "user-1",
          senderNick := some "user-1" }).text ∈ NEW_SESSION_COMMANDS ∧
    handleDingTalkMessage
        { msgtype := some "text", text := some ⟨some "/reset"⟩,
          conversationType := some "1", senderStaffId := some "user-1",
          senderNick := some "user-1" } none 42 [] =
      ((getSessionKey "user-1" true 1800000 42 []).2,
       [.sessionRotate "user-1"]) :=
  ⟨by decide,
   (handleDingTalkMessage_reset
      { msgtype := some "text", text := some ⟨some "/reset"⟩,
        conversationType := some "1", senderStaffId := some "user-1",
        senderNick := some "user-1" } none 42 [] (by decide)).1⟩

theorem processAudioMarkers_all_ws {s : String} (h : ∀ c ∈ s.data, c.isWhitespace) :
    processAudioMarkers s = "" := by
  unfold processAudioMarkers
  rw [replaceMarkers_all_ws _ _ h]
  exact jsTrim_of_all_ws h

theorem processFileMarkers_all_ws {s : String} (h : ∀ c ∈ s.data, c.isWhitespace) :
    processFileMarkers s = "" := by
  unfold processFileMarkers
  rw [replaceMarkers_all_ws _ _ h]
  exact jsTrim_of_all_ws h

/-- Blank content stays blank through the media pipeline, with no uploads. -/
theorem processRichContent_blank (env : SendEnv) {content : String}
    (h : ∀ c ∈ content.data, c.isWhitespace) :
    (processRichContent env content).2 = [] ∧
    jsTrim (processRichContent env content).1 = "" := by
  simp only [processRichContent]
  cases htok : env.oapiToken with
  | none => exact ⟨by simp, by simpa using jsTrim_of_all_ws h⟩
  | some tok =>
    by_cases h0 : tok = ""
    · simp only [h0, if_true]
      exact ⟨by simp, by simpa using jsTrim_of_all_ws h⟩
    · simp only [h0, if_false]
      rw [processLocalImages_all_ws env.upload (some tok) h]
      have h2 : processVideoMarkers content = "" := processVideoMarkers_all_ws h
      have h3 : processAudioMarkers "" = "" := processAudioMarkers_all_ws (by simp)
      have h4 : processFileMarkers "" = "" := processFileMarkers_all_ws (by simp)
      simp [h2, h3, h4]
      rfl

/-! ## Claim theorems: outbound send engine -/

/-- A concrete environment for witnesses: no OAPI token (media
post-processing skipped), successful card creation, successful batch
transport. -/
def demoEnv : SendEnv :=
  { oapiToken := none
    upload := fun _ => none
    createCard := some ⟨"card-1"⟩
    userBatch := .success (some "pqk-1") none
    groupSend := .success (some "pqk-2") none
    parseOk := true }

/-- Like `demoEnv` but with a valid OAPI token, so the media pipeline runs. -/
def demoEnvTok : SendEnv := { demoEnv with oapiToken := some "tok" }

/-- C3: `sendToUser` policy.  (1) The rich-card path is attempted (it always
opens with the OAPI-token fetch) iff rich cards are enabled (the default) and
exactly one user id was supplied; (2) if the rich attempt succeeds its result
is returned and no plain-path call is made; (3) if it fails and
`fallbackToNormal` is explicitly `false`, the failing result is returned with
no plain-path call; (4) with two or more ids the rich path is never attempted
and the plain batch path is used directly. -/
theorem sendToUser_policy (env : SendEnv) (userIds : UserIds) (content : String)
    (opts : ProactiveSendOptions) :
    ((TransportCall.fetchOapiToken ∈ (sendToUser env userIds content opts).2) ↔
      (opts.useAICard.getD true = true ∧ (toUserIdArray userIds).length = 1)) ∧
    (opts.useAICard.getD true = true → (toUserIdArray userIds).length = 1 →
      (sendAICardInternal env (.user ((toUserIdArray userIds).headD "")) content).1.ok = true →
      sendToUser env userIds content opts =
        sendAICardInternal env (.user ((toUserIdArray userIds).headD "")) content ∧
      ∀ a ∈ (sendToUser env userIds content opts).2, a.isCardPathCall = true) ∧
    (opts.useAICard.getD true = true → (toUserIdArray userIds).length = 1 →
      (sendAICardInternal env (.user ((toUserIdArray userIds).headD "")) content).1.ok = false →
      opts.fallbackToNormal = some false →
      (sendToUser env userIds content opts).1 =
        (sendAICardInternal env (.user ((toUserIdArray userIds).headD "")) content).1 ∧
      (sendToUser env userIds content opts).1.ok = false ∧
      ∀ a ∈ (sendToUser env userIds content opts).2, a.isCardPathCall = true) ∧
    ((toUserIdArray userIds).length ≥ 2 →
      sendToUser env userIds content opts =
        sendNormalToUser env (.inr (toUserIdArray userIds)) content opts ∧
      ∀ a ∈ (sendToUser env userIds content opts).2, a.isCardPathCall = false) := by
  by_cases hcond :
      (opts.useAICard.getD true && ((toUserIdArray userIds).length == 1)) = true
  · have hsplit := hcond
    simp only [Bool.and_eq_true, beq_iff_eq] at hsplit
    obtain ⟨hcard, hlen⟩ := hsplit
    have hbranch : sendToUser env userIds content opts =
        (if (sendAICardInternal env (.user ((toUserIdArray userIds).headD "")) content).1.ok
            || !(opts.fallbackToNormal.getD true) then
          sendAICardInternal env (.user ((toUserIdArray userIds).headD "")) content
        else
          ((sendNormalToUser env (.inr (toUserIdArray userIds)) content opts).1,
           (sendAICardInternal env (.user ((toUserIdArray userIds).headD "")) content).2 ++
             (sendNormalToUser env (.inr (toUserIdArray userIds)) content opts).2)) := by
      simp only [sendToUser, hcond, if_true]
    refine ⟨?_, ?_, ?_, ?_⟩
    · constructor
      · intro _; exact ⟨hcard, hlen⟩
      · intro _
        rw [hbranch]
        split
        · exact sendAICardInternal_fetches_token env _ content
        · exact List.mem_append_left _ (sendAICardInternal_fetches_token env _ content)
    · intro _ _ hok
      have : sendToUser env userIds content opts =
          sendAICardInternal env (.user ((toUserIdArray userIds).headD "")) content := by
        rw [hbranch]
        rw [if_pos (by rw [hok]; simp)]
      refine ⟨this, ?_⟩
      rw [this]
      exact sendAICardInternal_acts_card env _ content
    · intro _ _ hfail hfb
      have : sendToUser env userIds content opts =
          sendAICardInternal env (.user ((toUserIdArray userIds).headD "")) content := by
        rw [hbranch]
        rw [if_pos (by rw [hfb]; simp)]
      refine ⟨by rw [this], ?_, ?_⟩
      · rw [this]; exact hfail
      · rw [this]; exact sendAICardInternal_acts_card env _ content
    · intro hge
      omega
  · have hcondF : (opts.useAICard.getD true && ((toUserIdArray userIds).length == 1)) = false := by
      simpa using hcond
    have hbranch : sendToUser env userIds content opts =
        sendNormalToUser env (.inr (toUserIdArray userIds)) content opts := by
      simp only [sendToUser, hcondF]
      simp
    refine ⟨?_, ?_, ?_, ?_⟩
    · constructor
      · intro hmem
        rw [hbranch] at hmem
        have := sendNormalToUser_acts_plain env (.inr (toUserIdArray userIds)) content opts
          _ hmem
        simp [TransportCall.isCardPathCall] at this
      · rintro ⟨h1, h2⟩
        exfalso
        apply hcond
        simp [h1, h2]
    · intro h1 h2 _
      exfalso
      apply hcond
      simp [h1, h2]
    · intro h1 h2 _ _
      exfalso
      apply hcond
      simp [h1, h2]
    · intro _
      refine ⟨hbranch, ?_⟩
      rw [hbranch]
      exact sendNormalToUser_acts_plain env (.inr (toUserIdArray userIds)) content opts

theorem sendToUser_policy_witness :
    sendToUser demoEnv (.inl "u1") "hello" {} =
      sendAICardInternal demoEnv (.user "u1") "hello" ∧
    sendToUser demoEnv (.inr ["u1", "u2"]) "hello" {} =
      sendNormalToUser demoEnv (.inr ["u1", "u2"]) "hello" {} :=
  ⟨((sendToUser_policy demoEnv (.inl "u1") "hello" {}).2.1 rfl rfl (by decide)).1,
   ((sendToUser_policy demoEnv (.inr ["u1", "u2"]) "hello" {}).2.2.2 (by decide)).1⟩

/-- C8: `sendProactive` target resolution.  With no (truthy) user id, no user
id list and no (truthy) group conversation id, it returns `{ok:false}` with
the descriptive "must specify" error and makes no transport call; with a user
id or user id list present it delegates to `sendToUser`; with a group
conversation id present it delegates to `sendToGroup`.  In the delegating
cases the options pass through the markdown-sniffing default for `msgType`. -/
theorem sendProactive_spec (env : SendEnv) (target : ProactiveTarget)
    (content : String) (opts : ProactiveSendOptions) :
    (strTruthy target.userId = false → target.userIds = none →
      strTruthy target.openConversationId = false →
      sendProactive env target content opts =
        ({ ok := false, error := some "Must specify userId, userIds, or openConversationId",
           usedAICard := false }, [])) ∧
    ((strTruthy target.userId = true ∨ target.userIds.isSome = true) →
      sendProactive env target content opts =
        sendToUser env
          (match target.userIds with
           | some l => .inr l
           | none => .inl (target.userId.getD ""))
          content
          (if opts.msgType.isNone && hasMarkdownSignal content then
            { opts with msgType := some .markdown }
          else opts)) ∧
    (strTruthy target.userId = false → target.userIds = none →
      strTruthy target.openConversationId = true →
      sendProactive env target content opts =
        sendToGroup env (target.openConversationId.getD "") content
          (if opts.msgType.isNone && hasMarkdownSignal content then
            { opts with msgType := some .markdown }
          else opts)) := by
  refine ⟨?_, ?_, ?_⟩
  · intro h1 h2 h3
    simp [sendProactive, h1, h2, h3]
  · intro h
    rcases h with h | h
    · simp [sendProactive, h]
    · cases hids : target.userIds with
      | none => rw [hids] at h; simp at h
      | some l => simp [sendProactive, hids]
  · intro h1 h2 h3
    simp [sendProactive, h1, h2, h3]

theorem sendProactive_spec_witness :
    sendProactive demoEnv { } "ping" {} =
      ({ ok := false, error := some "Must specify userId, userIds, or openConversationId",
         usedAICard := false }, []) ∧
    sendProactive demoEnv { userId := some "u1" } "ping" {} =
      sendToUser demoEnv (.inl "u1") "ping" {} ∧
    sendProactive demoEnv { openConversationId := some "conv1" } "ping" {} =
      sendToGroup demoEnv "conv1" "ping" {} :=
  ⟨(sendProactive_spec demoEnv {} "ping" {}).1 rfl rfl rfl,
   (sendProactive_spec demoEnv { userId := some "u1" } "ping" {}).2.1 (Or.inl rfl),
   (sendProactive_spec demoEnv { openConversationId := some "conv1" } "ping" {}).2.2
     rfl rfl rfl⟩

/-- C10, counterexample: the claim's parenthetical asserts that media-marker
processing leaves whitespace-only input unchanged.  With a valid OAPI token
the marker processors end in `.trim()`, so the single-space content `" "` is
changed to `""` by the pipeline (and already by `processVideoMarkers`
alone). -/
theorem mediaMarkerProcessing_trims_whitespace :
    processVideoMarkers " " = "" ∧
    (processRichContent demoEnvTok " ").1 = "" ∧
    (" " : String) ≠ "" := by
  have hws : ∀ c ∈ (" " : String).data, c.isWhitespace := by decide
  refine ⟨processVideoMarkers_all_ws hws, ?_, by decide⟩
  have htok : demoEnvTok.oapiToken = some "tok" := rfl
  simp only [processRichContent, htok]
  rw [if_neg (by decide : ¬("tok" = ""))]
  rw [processLocalImages_all_ws demoEnvTok.upload (some "tok") hws]
  simp [processVideoMarkers_all_ws hws,
        processAudioMarkers_all_ws (s := "") (by simp),
        processFileMarkers_all_ws (s := "") (by simp)]

/-- C10 (amended): blank (empty or whitespace-only) content — which the
media pipeline maps to a blank, indeed empty, processed string — makes
`sendAICardInternal` return `{ok: true, usedAICard: false}` after only the
token fetch: no upload, no card creation, no finish, and no plain-path call;
consequently `sendToUser` with a single recipient and `sendToGroup` (with
rich cards enabled, the default) report overall success while delivering
nothing. -/
theorem sendAICard_blank_content (env : SendEnv) (target : AICardTarget)
    (content : String) (opts : ProactiveSendOptions)
    (h : ∀ c ∈ content.data, c.isWhitespace)
    (hcard : opts.useAICard.getD true = true) :
    sendAICardInternal env target content =
      ({ ok := true, usedAICard := false }, [.fetchOapiToken]) ∧
    (∀ uid, sendToUser env (.inl uid) content opts =
      ({ ok := true, usedAICard := false }, [.fetchOapiToken])) ∧
    (∀ cid, sendToGroup env cid content opts =
      ({ ok := true, usedAICard := false }, [.fetchOapiToken])) := by
  obtain ⟨hacts, htrim⟩ := processRichContent_blank env h
  have hcardResult : ∀ t, sendAICardInternal env t content =
      ({ ok := true, usedAICard := false }, [.fetchOapiToken]) := by
    intro t
    simp only [sendAICardInternal, htrim, if_true, hacts]
  refine ⟨hcardResult target, ?_, ?_⟩
  · intro uid
    simp only [sendToUser, hcard]
    simp only [toUserIdArray]
    simp [hcardResult (.user uid)]
  · intro cid
    simp only [sendToGroup, hcard]
    simp [hcardResult (.group cid)]

theorem sendAICard_blank_content_witness :
    sendAICardInternal demoEnvTok (.user "u1") "  " =
      ({ ok := true, usedAICard := false }, [.fetchOapiToken]) ∧
    sendToUser demoEnvTok (.inl "u1") "  " {} =
      ({ ok := true, usedAICard := false }, [.fetchOapiToken]) ∧
    sendToGroup demoEnvTok "conv1" "  " {} =
      ({ ok := true, usedAICard := false }, [.fetchOapiToken]) := by
  obtain ⟨h1, h2, h3⟩ :=
    sendAICard_blank_content demoEnvTok (.user "u1") "  " {} (by decide) rfl
  exact ⟨h1, h2 "u1", h3 "conv1"⟩

/-! ## Claim theorems: reply dispatcher -/

theorem chunkChars_length_le (limit : Nat) :
    ∀ cs : List Char, ∀ chunk ∈ chunkChars limit cs, chunk.length ≤ max limit 1 := by
  intro cs
  induction cs using chunkChars.induct limit with
  | case1 => rw [chunkChars]; simp
  | case2 c cs' ih =>
    intro chunk hchunk
    rw [chunkChars] at hchunk
    rcases List.mem_cons.mp hchunk with h | h
    · subst h
      rw [List.length_take]
      omega
    · exact ih chunk h

theorem chunkChars_join (limit : Nat) :
    ∀ cs : List Char, (chunkChars limit cs).join = cs := by
  intro cs
  induction cs using chunkChars.induct limit with
  | case1 => rw [chunkChars]; simp
  | case2 c cs' ih =>
    rw [chunkChars]
    simp only [List.join_cons, ih]
    exact List.take_append_drop _ _

theorem awaitCardCreation_idem (st : DispatchState) :
    awaitCardCreation (awaitCardCreation st) = awaitCardCreation st := by
  cases h : st.cardCreationPromise with
  | none => simp [awaitCardCreation, h]
  | some o => simp [awaitCardCreation, h]

/-- C2: per-fragment delivery.  (a) A blank fragment causes no externally
visible action and no state change; otherwise the dispatcher first awaits any
pending creation, and (b) with a card and a `final` fragment it finalizes the
card with the fragment text and sends nothing over the plain path, (c) with a
card and a non-final fragment nothing externally visible happens, and (d)
with no card the text is split into size-bounded chunks whose concatenation
is the text, and exactly those chunks are sent over the plain-text path in
order (each awaited before the next, which the trace order captures). -/
theorem deliver_spec (limit : Nat) (payloadText : Option String) (kind : FragKind)
    (st : DispatchState) :
    (jsTrim (payloadText.getD "") = "" →
      deliver limit payloadText kind st = (st, [])) ∧
    (∀ text c, payloadText = some text → jsTrim text ≠ "" →
      (awaitCardCreation st).card = some c → kind = .final →
      deliver limit payloadText kind st =
        (⟨none, none⟩, [.finishCard c.cardInstanceId text])) ∧
    (∀ text c, payloadText = some text → jsTrim text ≠ "" →
      (awaitCardCreation st).card = some c → kind ≠ .final →
      deliver limit payloadText kind st = (awaitCardCreation st, [])) ∧
    (∀ text, payloadText = some text → jsTrim text ≠ "" →
      (awaitCardCreation st).card = none →
      deliver limit payloadText kind st =
        (awaitCardCreation st, (chunkTextWithMode text limit).map .sendPlain) ∧
      ((chunkTextWithMode text limit).map String.data).join = text.data ∧
      (1 ≤ limit → ∀ chunk ∈ chunkTextWithMode text limit, chunk.length ≤ limit)) := by
  refine ⟨?_, ?_, ?_, ?_⟩
  · intro hblank
    simp [deliver, hblank]
  · intro text c hp htext hcard hkind
    subst hp
    subst hkind
    have htext' : text ≠ "" := fun h => htext (by rw [h]; rfl)
    have hstep : deliver limit (some text) FragKind.final st =
        closeCard text (awaitCardCreation st) := by
      simp only [deliver, Option.getD_some]
      rw [if_neg htext]
      simp [hcard]
    rw [hstep]
    simp only [closeCard, awaitCardCreation_idem, hcard]
    simp [htext']
  · intro text c hp htext hcard hkind
    subst hp
    simp only [deliver, Option.getD_some]
    rw [if_neg htext]
    simp only [hcard]
    simp [hkind]
  · intro text hp htext hcard
    subst hp
    refine ⟨?_, ?_, ?_⟩
    · simp only [deliver, Option.getD_some]
      rw [if_neg htext]
      simp [hcard]
    · simp only [chunkTextWithMode, List.map_map]
      have : (String.data ∘ String.mk) = id := rfl
      rw [this, List.map_id]
      exact chunkChars_join limit text.data
    · intro hlim chunk hchunk
      simp only [chunkTextWithMode, List.mem_map] at hchunk
      obtain ⟨cl, hcl, rfl⟩ := hchunk
      have := chunkChars_length_le limit text.data cl hcl
      have hmax : max limit 1 = limit := by omega
      rw [hmax] at this
      exact this

theorem deliver_spec_witness :
    deliver 4000 (some "   ") FragKind.final ⟨none, none⟩ = (⟨none, none⟩, []) ∧
    deliver 4000 (some "hi there") FragKind.final ⟨some ⟨"card-1"⟩, none⟩ =
      (⟨none, none⟩, [.finishCard "card-1" "hi there"]) :=
  ⟨(deliver_spec 4000 (some "   ") FragKind.final ⟨none, none⟩).1 (by decide),
   (deliver_spec 4000 (some "hi there") FragKind.final ⟨some ⟨"card-1"⟩, none⟩).2.1
     "hi there" ⟨"card-1"⟩ rfl (by decide) rfl rfl⟩

/-- No-finish and state bookkeeping of one `deliver` call, used for the
creation-attempt invariant. -/
theorem deliver_empty_state (limit : Nat) (p : Option String) (kind : FragKind)
    (st : DispatchState)
    (hempty : (deliver limit p kind st).1.cardCreationPromise = none ∧
      (deliver limit p kind st).1.card = none) :
    (st.cardCreationPromise = none ∧ st.card = none) ∨
    1 ≤ countFinish (deliver limit p kind st).2 := by
  by_cases hblank : jsTrim (p.getD "") = ""
  · left
    simp only [deliver, hblank, if_true] at hempty
    exact hempty
  · have hawait : (awaitCardCreation st).cardCreationPromise = st.cardCreationPromise := by
      cases h : st.cardCreationPromise with
      | none => simp [awaitCardCreation, h]
      | some o => simp [awaitCardCreation, h]
    cases hcard : (awaitCardCreation st).card with
    | some c =>
      by_cases hkind : kind = FragKind.final
      · right
        subst hkind
        have hstep : deliver limit p FragKind.final st =
            closeCard (p.getD "") (awaitCardCreation st) := by
          simp only [deliver]
          rw [if_neg hblank]
          simp [hcard]
        rw [hstep]
        simp only [closeCard, awaitCardCreation_idem, hcard]
        simp [countFinish]
      · exfalso
        have hstep : deliver limit p kind st = (awaitCardCreation st, []) := by
          simp only [deliver]
          rw [if_neg hblank]
          simp [hcard, hkind]
        rw [hstep] at hempty
        rw [hcard] at hempty
        simp at hempty
    | none =>
      left
      have hstep : deliver limit p kind st =
          (awaitCardCreation st,
           (chunkTextWithMode (p.getD "") limit).map .sendPlain) := by
        simp only [deliver]
        rw [if_neg hblank]
        simp [hcard]
      rw [hstep] at hempty
      have he1 : (awaitCardCreation st).cardCreationPromise = none := hempty.1
      have h1 : st.cardCreationPromise = none := by rw [← hawait]; exact he1
      refine ⟨h1, ?_⟩
      -- with the promise absent, awaiting changes nothing
      have hid : awaitCardCreation st = st := by
        simp [awaitCardCreation, h1]
      rw [hid] at hcard
      exact hcard

theorem deliver_attempt_free_finish (limit : Nat) (p : Option String)
    (kind : FragKind) (st : DispatchState) (hkind : kind ≠ FragKind.final) :
    countFinish (deliver limit p kind st).2 = 0 := by
  by_cases hblank : jsTrim (p.getD "") = ""
  · simp [deliver, hblank, countFinish]
  · simp only [deliver]
    rw [if_neg hblank]
    cases hcard : (awaitCardCreation st).card with
    | some c => simp [hkind, countFinish]
    | none => simp [countFinish, List.countP_map]

/-- The creation-attempt invariant: attempts never exceed finalizations plus
one, and while the dispatcher state is clean (no promise, no card) attempts
do not exceed finalizations. -/
def TurnInv (acc : TurnAcc) : Prop :=
  acc.attempts ≤ countFinish acc.actions + 1 ∧
  (acc.st.cardCreationPromise = none ∧ acc.st.card = none →
    acc.attempts ≤ countFinish acc.actions)

theorem turnStep_inv (limit : Nat) (acc : TurnAcc) (e : TurnEvent)
    (h : TurnInv acc) : TurnInv (turnStep limit acc e) := by
  obtain ⟨h1, h2⟩ := h
  cases e with
  | replyStart o =>
    by_cases hempty : acc.st.cardCreationPromise = none ∧ acc.st.card = none
    · have hguard : (acc.st.cardCreationPromise.isSome || acc.st.card.isSome) = false := by
        simp [hempty.1, hempty.2]
      have hstep : turnStep limit acc (.replyStart o) =
          ⟨{ acc.st with cardCreationPromise := some o }, acc.attempts + 1, acc.actions⟩ := by
        simp [turnStep, startCard, hguard, hempty.1, hempty.2]
      rw [hstep]
      constructor
      · have := h2 hempty
        simp only []
        omega
      · intro hcontra
        simp at hcontra
    · have hguard : (acc.st.cardCreationPromise.isSome || acc.st.card.isSome) = true := by
        rcases Decidable.not_and_iff_or_not.mp hempty with h | h
        · simp [Option.isSome_iff_ne_none.mpr h]
        · simp [Option.isSome_iff_ne_none.mpr h]
      have hstep : turnStep limit acc (.replyStart o) = acc := by
        simp [turnStep, startCard, hguard]
      rw [hstep]
      exact ⟨h1, h2⟩
  | fragment p kind =>
    have hstep : turnStep limit acc (.fragment p kind) =
        ⟨(deliver limit p kind acc.st).1, acc.attempts,
         acc.actions ++ (deliver limit p kind acc.st).2⟩ := by
      simp [turnStep]
    rw [hstep]
    have hcount : countFinish (acc.actions ++ (deliver limit p kind acc.st).2) =
        countFinish acc.actions + countFinish (deliver limit p kind acc.st).2 := by
      simp [countFinish, List.countP_append]
    constructor
    · simp only [hcount]
      omega
    · intro hempty
      simp only [hcount]
      rcases deliver_empty_state limit p kind acc.st hempty with hst | hfin
      · have := h2 hst
        omega
      · omega

theorem runTurn_foldl_inv (limit : Nat) :
    ∀ (evs : List TurnEvent) (acc : TurnAcc), TurnInv acc →
      TurnInv (evs.foldl (turnStep limit) acc) := by
  intro evs
  induction evs with
  | nil => intro acc h; exact h
  | cons e evs' ih =>
    intro acc h
    exact ih (turnStep limit acc e) (turnStep_inv limit acc e h)

theorem runTurn_no_final_no_finish (limit : Nat) :
    ∀ (evs : List TurnEvent) (acc : TurnAcc),
      (∀ e ∈ evs, e.isFinalFragment = false) →
      countFinish (evs.foldl (turnStep limit) acc).actions = countFinish acc.actions := by
  intro evs
  induction evs with
  | nil => intro acc _; rfl
  | cons e evs' ih =>
    intro acc h
    have he := h e (by simp)
    rw [List.foldl_cons, ih (turnStep limit acc e) (fun x hx => h x (by simp [hx]))]
    cases e with
    | replyStart o =>
      rcases hsc : startCard o acc.st with ⟨st1, b1⟩
      rcases hsc2 : startCard o st1 with ⟨st2, b2⟩
      simp [turnStep, hsc, hsc2]
    | fragment p kind =>
      have hkind : kind ≠ FragKind.final := by
        intro hk
        subst hk
        simp [TurnEvent.isFinalFragment] at he
      have hz := deliver_attempt_free_finish limit p kind acc.st hkind
      rcases hd : deliver limit p kind acc.st with ⟨st', acts⟩
      rw [hd] at hz
      simp only [turnStep, hd]
      simp only [countFinish, List.countP_append] at hz ⊢
      omega

/-- C6, counterexample: the claim asserts that no sequence of reply-start and
fragment events can cause two card-creation attempts on one dispatcher
instance.  After a final fragment finalizes the card, both guards
(`cardCreationPromise`, `card`) are cleared, so a subsequent reply-start
event starts a second creation: three events suffice. -/
theorem startCard_twice_after_finalize :
    (runTurn 4000 [.replyStart (some ⟨"card-1"⟩),
                   .fragment (some "done") .final,
                   .replyStart (some ⟨"card-2"⟩)]).attempts = 2 := by
  decide

/-- C6 (amended): card creation is attempted at most once per card
lifecycle: `startCard` is a no-op while a creation is in flight or a card
exists, and only finalization clears those guards.  Hence the number of
creation attempts in any event sequence is at most one more than the number
of finalizations performed, and a sequence containing no `final` fragment
causes at most one creation attempt. -/
theorem startCard_at_most_once (limit : Nat) (evs : List TurnEvent) :
    (runTurn limit evs).attempts ≤ countFinish (runTurn limit evs).actions + 1 ∧
    ((∀ e ∈ evs, e.isFinalFragment = false) → (runTurn limit evs).attempts ≤ 1) := by
  have hinv := runTurn_foldl_inv limit evs ⟨⟨none, none⟩, 0, []⟩
    ⟨by simp [countFinish], fun _ => by simp [countFinish]⟩
  refine ⟨hinv.1, ?_⟩
  intro hnf
  have hz := runTurn_no_final_no_finish limit evs ⟨⟨none, none⟩, 0, []⟩ hnf
  have hc : countFinish (runTurn limit evs).actions = 0 := by
    show countFinish (evs.foldl (turnStep limit) ⟨⟨none, none⟩, 0, []⟩).actions = 0
    rw [hz]
    simp [countFinish]
  have h1 : (runTurn limit evs).attempts ≤
      countFinish (runTurn limit evs).actions + 1 := hinv.1
  omega

theorem startCard_at_most_once_witness :
    (runTurn 4000 [.replyStart (some ⟨"card-1"⟩),
                   .fragment (some "partial") .intermediate,
                   .replyStart (some ⟨"card-1"⟩)]).attempts ≤ 1 :=
  (startCard_at_most_once 4000
    [.replyStart (some ⟨"card-1"⟩),
     .fragment (some "partial") .intermediate,
     .replyStart (some ⟨"card-1"⟩)]).2 (by decide)

/-! ## Claim theorems: gateway stop idempotence -/

theorem runStops_stopped (n : Nat) : runStops true n = (true, []) := by
  induction n with
  | zero => rfl
  | succ n ih => simp [runStops, stopOnce, ih]

/-- C7: however many times the stop function is invoked or the abort signal
fires (both run the same `stopped`-guarded body), the stop-side effects are
emitted exactly once: the first firing disconnects and records activity, and
every later firing is a no-op that emits nothing. -/
theorem stop_effects_once (n : Nat) :
    (runStops false n).2 =
      if n = 0 then ([] : List GatewayAction) else [.disconnect, .recordActivity] := by
  cases n with
  | zero => rfl
  | succ n =>
    simp [runStops, stopOnce, runStops_stopped n]
